import Mathlib

/-!
Verification of the MariasbMigration repository against its natural-language
specification.  The Python sources (migrate_customer_data_v3.py,
delete_migrated_data.py, migrate_databases.py) are shallowly embedded below:
Python strings become lists of characters, dictionaries become association
lists, database effects become explicit state passing, and user input /
per-row insert outcomes become explicit oracle parameters.
-/

/-- Python strings are modelled as lists of characters. -/

abbrev Str := List Char

/-- Python str.lower(), character by character. -/

def lowerS (s : Str) : Str := s.map Char.toLower

/-- Python str.strip(): drop leading and trailing whitespace. -/

def trimS (s : Str) : Str :=
  ((s.dropWhile Char.isWhitespace).reverse.dropWhile Char.isWhitespace).reverse

/-!
Pattern matching for SKIP_TABLES / FORCE_MIGRATE_TABLES
(migrate_customer_data_v3.py lines 130-222).
-/

/-- Body of the pattern loop of should_force_migrate
(migrate_customer_data_v3.py lines 153-171): strip and lowercase the
pattern, skip it when empty, else accept on an exact DATABASE.TABLE match,
a *.TABLE match, or a bare TABLE-name match (pattern without a dot). -/

def forceCodeTok (database table : Str) (pat : Str) : Bool :=
  let p := lowerS (trimS pat)
  if p = [] then false
  else
    (p = lowerS (database ++ '.' :: table)) ||
    (p.take 2 = ['*', '.'] && lowerS table = p.drop 2) ||
    (!p.contains '.' && lowerS table = p)

/-- Translation of should_force_migrate (migrate_customer_data_v3.py,
lines 130-173). -/

def should_force_migrate (database table : Str) (force_list : List Str) : Bool :=
  force_list.any (forceCodeTok database table)

/-- Body of the pattern loop of should_skip_table
(migrate_customer_data_v3.py lines 200-220): strip and lowercase the
pattern, skip it when empty, else accept on an exact DATABASE.TABLE match,
a DATABASE.* match (pattern ending in dot-star), or a *.TABLE match. -/

def skipCodeTok (database table : Str) (pat : Str) : Bool :=
  let p := lowerS (trimS pat)
  if p = [] then false
  else
    (p = lowerS (database ++ '.' :: table)) ||
    (p.drop (p.length - 2) = ['.', '*'] && lowerS database = p.take (p.length - 2)) ||
    (p.take 2 = ['*', '.'] && lowerS table = p.drop 2)

/-- Translation of should_skip_table (migrate_customer_data_v3.py,
lines 176-222). -/

def should_skip_table (database table : Str) (skip_list : List Str) : Bool :=
  skip_list.any (skipCodeTok database table)

/-- Specification reading of one skip token: the token, compared
case-insensitively, is DB.TABLE, DB.*, or *.TABLE. -/

def skipSpecTok (database table : Str) (tok : Str) : Bool :=
  (lowerS tok = lowerS database ++ '.' :: lowerS table) ||
  (lowerS tok = lowerS database ++ ['.', '*']) ||
  (lowerS tok = '*' :: '.' :: lowerS table)

/-- Specification reading of one force token: the token, compared
case-insensitively, is DB.TABLE, *.TABLE, or a bare TABLE name
(a token without a dot). -/

def forceSpecTok (database table : Str) (tok : Str) : Bool :=
  (lowerS tok = lowerS database ++ '.' :: lowerS table) ||
  (lowerS tok = '*' :: '.' :: lowerS table) ||
  (!(lowerS tok).contains '.' && lowerS tok = lowerS table)

/-- Specification-side skip matching: some token matches. -/

def skipSpec (database table : Str) (toks : List Str) : Bool :=
  toks.any (skipSpecTok database table)

/-- Specification-side force matching: some token matches. -/

def forceSpec (database table : Str) (toks : List Str) : Bool :=
  toks.any (forceSpecTok database table)

/-!
Implicit foreign-key detection
(migrate_customer_data_v3.py lines 539-584).
-/

/-- Foreign-key record as built by the migration script: column, referenced
table, optional referenced column, and whether it came from
INFORMATION_SCHEMA (explicit) or from name inference (implicit). -/

structure FK where
  column : Str
  referenced_table : Str
  referenced_column : Option Str
  isExplicit : Bool
deriving DecidableEq

/-- Reserved column names skipped by implicit FK detection (line 558). -/

def reservedCols : List Str :=
  ["id".toList, "created_by".toList, "updated_by".toList,
   "created_at".toList, "updated_at".toList]

/-- Model of matching the lazy regex (caret)(.+?)_?id(dollar) with
IGNORECASE (line 554) and extracting the captured group: the column must
have length at least 3 and end in the two letters i d (case-insensitively);
the group is everything before them, minus one trailing underscore when
dropping it still leaves the group nonempty (the lazy .+? prefers the
shorter group, so the optional underscore is consumed when possible). -/

def fkStem (col : Str) : Option Str :=
  if 3 ≤ col.length ∧ lowerS (col.drop (col.length - 2)) = ['i', 'd'] then
    let base := col.take (col.length - 2)
    if 2 ≤ base.length ∧ base.getLast? = some '_' then some base.dropLast
    else some base
  else none

/-- Python str.rstrip with argument s: remove ALL trailing s characters
(line 569). -/

def rstripS (s : Str) : Str := (s.reverse.dropWhile (· = 's')).reverse

/-- Translation of find_table_case_insensitive (lines 539-545): first table
whose lowercased name equals the lowercased target. -/

def find_table_case_insensitive (all_tables : List Str) (target : Str) : Option Str :=
  all_tables.find? fun t => lowerS t = lowerS target

/-- One column step of detect_implicit_foreign_keys (lines 548-584): skip
reserved columns, match the id-suffix regex, then try the candidates
stem, stem plus s, stem rstripped of s, in order; the first candidate that
resolves to a table yields an implicit FK with null referenced column. -/

def implicitFkFor (all_tables : List Str) (column : Str) : Option FK :=
  if lowerS column ∈ reservedCols then none
  else
    match fkStem column with
    | none => none
    | some stem =>
      match [stem, stem ++ ['s'], rstripS stem].findSome?
          (find_table_case_insensitive all_tables) with
      | some rt => some ⟨column, rt, none, false⟩
      | none => none

/-- Translation of detect_implicit_foreign_keys (lines 548-584). -/

def detect_implicit_foreign_keys (columns all_tables : List Str) : List FK :=
  columns.filterMap (implicitFkFor all_tables)

/-- Remove one trailing s character, as the claim and spec (trimSuffix)
describe the third candidate. -/

def trimOneS (s : Str) : Str :=
  if s.getLast? = some 's' then s.dropLast else s

/-- Remove all trailing s characters, defined independently by recursion
from the end of the string. -/

def stripAllS (s : Str) : Str :=
  if h : s.getLast? = some 's' then stripAllS s.dropLast else s
termination_by s.length
decreasing_by
  have hne : s ≠ [] := fun hnil => by simp [hnil] at h
  have h0 : s.length ≠ 0 := by simpa [List.length_eq_zero] using hne
  simp [List.length_dropLast]
  omega

/-- Specification-side implicit FK detection for one column, following the
claim amended at one point: the third candidate is the stem with ALL
trailing s characters removed (the code uses rstrip), not just one. -/

def implicitFkSpec (all_tables : List Str) (column : Str) : Option FK :=
  if lowerS column ∈ reservedCols then none
  else
    match fkStem column with
    | none => none
    | some stem =>
      match find_table_case_insensitive all_tables stem with
      | some rt => some ⟨column, rt, none, false⟩
      | none =>
        match find_table_case_insensitive all_tables (stem ++ ['s']) with
        | some rt => some ⟨column, rt, none, false⟩
        | none =>
          match find_table_case_insensitive all_tables (stripAllS stem) with
          | some rt => some ⟨column, rt, none, false⟩
          | none => none

/-!
Relationship chain resolution
(migrate_customer_data_v3.py lines 595-631).
-/

/-- Result of build_relationship_chain: the id type string (customer_id or
user_id), the chain of table names, and the FK edge connecting the head
table to the rest of the chain (none for a directly-bearing table). -/

structure Chain where
  idType : Str
  chain : List Str
  firstFk : Option FK
deriving DecidableEq

/-- The all_fks dictionary: association list from table name to FK list. -/

abbrev FKMap := List (Str × List FK)

/-- Dictionary access: Python's membership test plus indexing on all_fks
(line 621); an absent key contributes no FK edges. -/

def fksOf (g : FKMap) (t : Str) : List FK :=
  match g.find? fun p => p.1 = t with
  | some p => p.2
  | none => []

/-- One iteration of the FK loop of build_relationship_chain (lines
621-629): a result already found is passed through (the Python loop
returns immediately); otherwise recurse into the referenced table with the
shared visited set, and on success prepend the current table and record
the connecting FK. -/

def chainStep (rec : Str → List Str → Option Chain × List Str) (t : Str)
    (acc : Option Chain × List Str) (fk : FK) : Option Chain × List Str :=
  match acc with
  | (some r, v) => (some r, v)
  | (none, v) =>
    match rec fk.referenced_table v with
    | (some r, v') => (some ⟨r.idType, t :: r.chain, some fk⟩, v')
    | (none, v') => (none, v')

/-- Translation of build_relationship_chain (lines 595-631), with explicit
fuel for termination (the Python recursion terminates because the shared
visited set grows).  A visited node yields None; the node is added to the
visited set; a node in the customer set terminates with customer_id, then
the user set with user_id; otherwise the outgoing FK edges are tried in
order, depth first. -/

def chainAux (g : FKMap) (cust user : List Str) :
    Nat → Str → List Str → Option Chain × List Str
  | 0, _, visited => (none, visited)
  | fuel + 1, t, visited =>
    if t ∈ visited then (none, visited)
    else if t ∈ cust then (some ⟨"customer_id".toList, [t], none⟩, t :: visited)
    else if t ∈ user then (some ⟨"user_id".toList, [t], none⟩, t :: visited)
    else (fksOf g t).foldl (chainStep (chainAux g cust user fuel) t) (none, t :: visited)

/-- Total number of FK edges in the map. -/

def totalFks (g : FKMap) : Nat := (g.map fun p => p.2.length).sum

/-- Fuel that is never exhausted: each recursion level adds a distinct
table to the visited set, and only the start table and referenced tables
can ever be added. -/

def chainFuel (g : FKMap) : Nat := totalFks g + 2

/-- Entry point of build_relationship_chain with the default empty visited
set; only the returned chain is used by the caller. -/

def build_relationship_chain (t : Str) (g : FKMap) (cust user : List Str) :
    Option Chain :=
  (chainAux g cust user (chainFuel g) t []).1

/-- There is an FK edge in the map from table a to table b. -/

def hasEdge (g : FKMap) (a b : Str) : Bool :=
  (fksOf g a).any fun fk => fk.referenced_table = b

/-- A list of table names is a valid FK path to a target-bearing table:
nonempty, consecutive elements joined by FK edges, and the last element in
the target set. -/

def validChain (g : FKMap) (tgt : List Str) : List Str → Bool
  | [] => false
  | [a] => a ∈ tgt
  | a :: b :: rest => hasEdge g a b && validChain g tgt (b :: rest)

/-- Number of elements of the universe U not yet visited. -/

def unvisited (U v : List Str) : Nat := U.countP fun x => decide (x ∉ v)

/-- Every element added to the visited set by a failed search is a
non-target node all of whose FK successors are also in the final visited
set. -/

def NewClosed (g : FKMap) (cust user : List Str) (v v' : List Str) : Prop :=
  ∀ x ∈ v', x ∈ v ∨
    (x ∉ cust ∧ x ∉ user ∧ ∀ fk ∈ fksOf g x, fk.referenced_table ∈ v')

/-- Universe of tables that can ever enter the visited set: the start
table together with every referenced table of the FK map. -/

def chainUniverse (g : FKMap) (t : Str) : List Str :=
  (t :: g.flatMap fun p => p.2.map fun fk => fk.referenced_table).dedup

/-- Concrete FK edge from table t to table a. -/

def fkTA : FK := ⟨"a_id".toList, "a".toList, none, false⟩

/-- Concrete FK edge from table t to table b. -/

def fkTB : FK := ⟨"b_id".toList, "b".toList, none, false⟩

/-- Concrete FK edge from table a to table b. -/

def fkAB : FK := ⟨"b_id".toList, "b".toList, some "id".toList, true⟩

/-- Concrete FK graph t -> a, t -> b (edges in that order), a -> b. -/

def gShort : FKMap := [("t".toList, [fkTA, fkTB]), ("a".toList, [fkAB])]

/-!
Table classification and the per-run state machine
(migrate_customer_data_v3.py lines 259-281, 587-592, 642-674, 921-1519).
-/

/-- A table as introspected from the source: name and ordered columns. -/

structure TableInfo where
  name : Str
  columns : List Str
deriving DecidableEq

/-- First column of a table whose lowercased name is customer_id, as the
loop at lines 662-669 finds it. -/

def customerCol (t : TableInfo) : Option Str :=
  t.columns.find? fun c => lowerS c = "customer_id".toList

/-- Translation of categorize_tables_by_customer_id (lines 642-674): each
table goes to the with-customer list paired with the actual column name,
or to the without-customer name list, preserving order. -/

def categorize_tables_by_customer_id (tables : List TableInfo) :
    List (Str × Str) × List Str :=
  (tables.filterMap fun t => (customerCol t).map fun col => (t.name, col),
   (tables.filter fun t => (customerCol t).isNone).map TableInfo.name)

/-- Translation of find_user_id_column (lines 587-592). -/

def find_user_id_column (columns : List Str) : Option Str :=
  columns.find? fun c => lowerS c = "user_id".toList

/-- Extend the all_fks defaultdict with the implicit FKs of one table
(line 975): appending to an existing entry or creating a new one; an empty
list changes nothing. -/

def addFksEntry (m : FKMap) (t : Str) (new : List FK) : FKMap :=
  if new = [] then m
  else
    match m.find? fun p => p.1 = t with
    | some _ => m.map fun p => if p.1 = t then (p.1, p.2 ++ new) else p
    | none => m ++ [(t, new)]

/-- Build the combined FK map of migrate_database_data (lines 966-975):
start from the explicit FKs, then extend per table with the detected
implicit FKs. -/

def buildAllFks (explicitFks : FKMap) (tables : List TableInfo) : FKMap :=
  tables.foldl
    (fun m t =>
      addFksEntry m t.name
        (detect_implicit_foreign_keys t.columns (tables.map TableInfo.name)))
    explicitFks

/-- The four category lists computed by migrate_database_data
(lines 980-1011). -/

structure Classification where
  withCustomer : List (Str × Str)
  withUser : List (Str × Str)
  indirect : List (Str × Chain)
  reference : List Str
deriving DecidableEq

/-- Names of the tables categorized as having customer_id (line 996). -/

def custNamesOf (tables : List TableInfo) : List Str :=
  (categorize_tables_by_customer_id tables).1.map Prod.fst

/-- The tables_with_user list (lines 984-993): for each table not already
categorized by customer_id, pick its user_id column when present. -/

def withUserOf (tables : List TableInfo) : List (Str × Str) :=
  tables.filterMap fun t =>
    if t.name ∈ custNamesOf tables then none
    else (find_user_id_column t.columns).map fun col => (t.name, col)

/-- Names of the tables carrying user_id (line 997). -/

def userNamesOf (tables : List TableInfo) : List Str :=
  (withUserOf tables).map Prod.fst

/-- The tables_without_customer list after the user-id tables are removed
(lines 991-993); Python list.remove drops the first occurrence. -/

def withoutCust2Of (tables : List TableInfo) : List Str :=
  (userNamesOf tables).foldl (fun acc n => acc.erase n)
    (categorize_tables_by_customer_id tables).2

/-- Translation of the classification prelude of migrate_database_data
(lines 980-1011): categorize by customer_id; collect user_id tables among
the remaining ones and remove their names from the without-customer list;
resolve a relationship chain for each leftover table, splitting them into
indirect and pure reference. -/

def classifyTables (tables : List TableInfo) (allFks : FKMap) : Classification :=
  ⟨(categorize_tables_by_customer_id tables).1,
   withUserOf tables,
   (withoutCust2Of tables).filterMap fun tn =>
     (build_relationship_chain tn allFks (custNamesOf tables)
       (userNamesOf tables)).map fun r => (tn, r),
   (withoutCust2Of tables).filter fun tn =>
     (build_relationship_chain tn allFks (custNamesOf tables)
       (userNamesOf tables)).isNone⟩

/-- Status value written into the per-table migration state
(set_table_state, lines 266-281). -/

inductive TStatus where
  | completed (rows : Nat)
  | skipped (reason : Str)
  | failed (reason : Str)
deriving DecidableEq

/-- The tables subtree of the migration state: (database, table) to
status, modelling the nested dictionaries. -/

abbrev MState := List ((Str × Str) × TStatus)

/-- Translation of get_table_state (lines 259-263). -/

def get_table_state (st : MState) (db table : Str) : Option TStatus :=
  (st.find? fun e => e.1 = (db, table)).map Prod.snd

/-- Translation of set_table_state (lines 266-281): unconditionally
overwrite the entry for (database, table). -/

def set_table_state (st : MState) (db table : Str) (s : TStatus) : MState :=
  ((db, table), s) :: st.filter fun e => ¬ e.1 = (db, table)

/-- The status check of the already-migrated guard (lines 1109-1114):
Python tests existing.get(status) == completed. -/

def isCompletedSt : Option TStatus → Bool
  | some (TStatus.completed _) => true
  | _ => false

/-- Result of the try-block work for one table, abstracting the database:
the destination table may be missing, the row counting or the data copy
may raise, or the copy completes with inserted and failed row counts. -/

inductive TableOutcome where
  | missingDest
  | countExc
  | migrateExc
  | migrateOk (inserted : Nat) (failedRows : Nat)
deriving DecidableEq

/-- Abstracted environment and interactive answers for one table:
the try-block outcome, the reference row count, the answer to the
re-prompt for a previously user-declined table, and the answer to the
over-threshold confirmation prompt. -/

structure TableEnv where
  outcome : TableOutcome
  rowCount : Nat
  againYes : Bool
  promptYes : Bool
deriving DecidableEq

/-- Run-level configuration: the environment pattern lists and flags plus
the command-line force options. -/

structure RunCfg where
  skipTables : List Str
  forceMigrateTables : List Str
  skipLargeTables : Bool
  autoConfirmThreshold : Nat
  force : Bool
  forceTables : List Str

/-- The force test repeated at lines 1108, 1176, 1246, 1318: the --force
flag, the bare table name in --force-tables, or DATABASE.TABLE in
--force-tables. -/

def shouldForceTable (cfg : RunCfg) (db table : Str) : Bool :=
  cfg.force || table ∈ cfg.forceTables || (db ++ '.' :: table) ∈ cfg.forceTables

/-- Exception text is abstracted: set_table_state stores str(e) truncated,
whose content the state machine never inspects. -/

def excReason : Str := "exc".toList

/-- State write performed when processing one table of phases 1, 1B or 1C
(lines 1094-1292): the skip-list gate writes skipped with reason
env_skip_tables; the already-completed gate (without force) writes
nothing; a missing destination table writes nothing (only a failure
counter is bumped); an exception writes failed; completion writes
completed with the inserted count, even when some rows failed. -/

def processFilteredTable (cfg : RunCfg) (st : MState) (db table : Str)
    (env : TableEnv) : Option TStatus :=
  if should_skip_table db table cfg.skipTables then
    some (TStatus.skipped "env_skip_tables".toList)
  else if ¬ shouldForceTable cfg db table = true ∧
      isCompletedSt (get_table_state st db table) = true then none
  else
    match env.outcome with
    | .missingDest => none
    | .countExc => some (TStatus.failed excReason)
    | .migrateExc => some (TStatus.failed excReason)
    | .migrateOk ins _ => some (TStatus.completed ins)

/-- State write performed when processing one reference table of phase 2
(lines 1304-1449): the skip-list gate and completed gate as in the other
phases; a previously user-declined table re-prompts and a refusal writes
nothing; a missing destination writes nothing; a row-count exception
writes failed; then the FORCE_MIGRATE_TABLES gate migrates without
prompting, an over-threshold count auto-skips (SKIP_LARGE_TABLES) or
prompts, with refusal writing skipped with reason user_declined; the
migration itself then writes failed on exception or completed. -/

def processReferenceTable (cfg : RunCfg) (st : MState) (db table : Str)
    (env : TableEnv) : Option TStatus :=
  if should_skip_table db table cfg.skipTables then
    some (TStatus.skipped "env_skip_tables".toList)
  else if ¬ shouldForceTable cfg db table = true ∧
      isCompletedSt (get_table_state st db table) = true then none
  else if ¬ shouldForceTable cfg db table = true ∧
      get_table_state st db table =
        some (TStatus.skipped "user_declined".toList) ∧
      ¬ env.againYes = true then none
  else
    match env.outcome with
    | .missingDest => none
    | .countExc => some (TStatus.failed excReason)
    | _ =>
      if should_force_migrate db table cfg.forceMigrateTables then
        match env.outcome with
        | .migrateExc => some (TStatus.failed excReason)
        | .migrateOk ins _ => some (TStatus.completed ins)
        | _ => none
      else if cfg.autoConfirmThreshold < env.rowCount then
        if cfg.skipLargeTables then
          some (TStatus.skipped "user_declined".toList)
        else if env.promptYes then
          match env.outcome with
          | .migrateExc => some (TStatus.failed excReason)
          | .migrateOk ins _ => some (TStatus.completed ins)
          | _ => none
        else some (TStatus.skipped "user_declined".toList)
      else
        match env.outcome with
        | .migrateExc => some (TStatus.failed excReason)
        | .migrateOk ins _ => some (TStatus.completed ins)
        | _ => none

/-- One write event: (database, table) key and the status written. -/

abbrev WriteEv := (Str × Str) × TStatus

/-- Process one phase: for each table in order, compute the write of its
gate chain, apply it to the state and append it to the write log. -/

def runPhase (cfg : RunCfg) (db : Str) (envOf : Str → TableEnv)
    (proc : RunCfg → MState → Str → Str → TableEnv → Option TStatus)
    (names : List Str) (acc : MState × List WriteEv) : MState × List WriteEv :=
  names.foldl
    (fun acc tn =>
      match proc cfg acc.1 db tn (envOf tn) with
      | none => acc
      | some s => (set_table_state acc.1 db tn s, acc.2 ++ [((db, tn), s)]))
    acc

/-- One source database with its introspected tables and explicit FKs. -/

structure DbInfo where
  name : Str
  tables : List TableInfo
  explicitFks : FKMap

/-- State writes of one migrate_database_data call (lines 921-1519):
classify, then run phases 1, 1B, 1C and 2 in order over the classified
name lists, threading the state.  Routine writes (phase 0) go to the
separate routines subtree and never touch table entries. -/

def migrate_database_data_writes (cfg : RunCfg) (db : DbInfo)
    (envOf : Str → TableEnv) (st : MState) : MState × List WriteEv :=
  let allFks := buildAllFks db.explicitFks db.tables
  let cls := classifyTables db.tables allFks
  let s1 := runPhase cfg db.name envOf processFilteredTable
    (cls.withCustomer.map Prod.fst) (st, [])
  let s2 := runPhase cfg db.name envOf processFilteredTable
    (cls.withUser.map Prod.fst) s1
  let s3 := runPhase cfg db.name envOf processFilteredTable
    (cls.indirect.map Prod.fst) s2
  runPhase cfg db.name envOf processReferenceTable cls.reference s3

/-- State writes of one whole run: main's loop over the databases
(lines 1732-1747), accumulating the write log. -/

def run_migration (cfg : RunCfg) (dbs : List (DbInfo × (Str → TableEnv)))
    (st : MState) : MState × List WriteEv :=
  dbs.foldl
    (fun acc d =>
      ((migrate_database_data_writes cfg d.1 d.2 acc.1).1,
       acc.2 ++ (migrate_database_data_writes cfg d.1 d.2 acc.1).2))
    (st, [])

/-- Concrete table with a customer_id column (in different case) and a
user_id column. -/

def tblRole : TableInfo :=
  ⟨"role".toList, ["id".toList, "Customer_ID".toList, "user_id".toList]⟩

/-- Concrete companion table without customer or user columns. -/

def tblMisc : TableInfo := ⟨"misc".toList, ["id".toList]⟩

/-- Concrete table T carrying a customer_id column. -/

def tblT : TableInfo := ⟨"T".toList, ["id".toList, "customer_id".toList]⟩

/-- Concrete database A containing only table T. -/

def dbA : DbInfo := ⟨"A".toList, [tblT], []⟩

/-- Environment where migrating any table succeeds with five rows. -/

def envOkC3 : Str → TableEnv := fun _ => ⟨TableOutcome.migrateOk 5 0, 0, true, true⟩

/-- Environment where migrating any table raises an exception. -/

def envExcC3 : Str → TableEnv := fun _ => ⟨TableOutcome.migrateExc, 0, true, true⟩

/-- Run configuration with --force set and no pattern lists. -/

def cfgC3 : RunCfg := ⟨[], [], false, 400, true, []⟩

/-- The table names processed by the four phases, in phase order. -/

def phaseNames (tables : List TableInfo) (allFks : FKMap) : List Str :=
  ((classifyTables tables allFks).withCustomer.map Prod.fst) ++
  (((classifyTables tables allFks).withUser.map Prod.fst) ++
  (((classifyTables tables allFks).indirect.map Prod.fst) ++
  (classifyTables tables allFks).reference))

/-!
Destination FK-check toggling and the destructive row-delete script
(migrate_customer_data_v3.py lines 1046-1519, delete_migrated_data.py).
-/

/-- Session state of the destination connection that the scripts touch:
the FOREIGN_KEY_CHECKS session variable. -/

structure DestConn where
  fkChecks : Bool
deriving DecidableEq

/-- Execute SET FOREIGN_KEY_CHECKS on the destination connection;
statement execution on a live connection is modelled as succeeding. -/

def setFK (c : DestConn) (b : Bool) : DestConn := { c with fkChecks := b }

/-- Connection-level effect of migrate_database_data (lines 921-1519) on
the destination, the work between the FK toggles abstracted to whether an
exception escapes: the missing-database and empty-database early returns
happen before FK checks are disabled (line 1060); then checks are
disabled, the phases run, and on normal completion checks are re-enabled
at line 1454; the finally block (lines 1509-1516) executes SET
FOREIGN_KEY_CHECKS = 1 once more on every path before the connections
close; an escaping error is re-raised after the finally block, so the
result carries both the error and the final connection state. -/

def migrate_database_data_fk (dbMissing noTables : Bool)
    (phaseErr : Option Str) (c : DestConn) : Option Str × DestConn :=
  let body :=
    if dbMissing then (none, c)
    else if noTables then (none, c)
    else
      match phaseErr with
      | some e => (some e, setFK c false)
      | none => (none, setFK (setFK c false) true)
  (body.1, setFK body.2 true)

/-- One table of the target database as the deletion script sees it: its
name, whether it has a customer_id column, and one entry per row carrying
the row's customer_id value (none when the column is absent). -/

structure TargetTable where
  name : Str
  hasCustomerId : Bool
  rows : List (Option Nat)
deriving DecidableEq

/-- One target database: name and tables. -/

structure TargetDb where
  name : Str
  tables : List TargetTable
deriving DecidableEq

/-- Python truthiness of the customer id argument: None and the empty
list are falsy. -/

def idsTruthy : Option (List Nat) → Bool
  | some ids => ¬ ids.isEmpty
  | none => false

/-- Decimal digits of a natural number. -/

def natToStr (n : Nat) : Str := Nat.toDigits 10 n

/-- Python ','.join. -/

def joinCommas : List Str → Str
  | [] => []
  | [x] => x
  | x :: y :: rest => x ++ ',' :: joinCommas (y :: rest)

/-- The filter string built at line 180 of delete_migrated_data.py. -/

def filterStrOf (ids : List Nat) : Str :=
  "customer_id IN (".toList ++ joinCommas (ids.map natToStr) ++ [')']

/-- The filter string built at line 183 of delete_migrated_data.py. -/

def allRowsStr : Str := "ALL ROWS (no customer_id filter)".toList

/-- Analysis record for one table (lines 186-191 of
delete_migrated_data.py). -/

structure TableScope where
  name : Str
  row_count : Nat
  has_customer_id : Bool
  filter_used : Str
deriving DecidableEq

/-- Row matches the customer_id IN (ids) condition. -/

def rowMatchesIds (ids : List Nat) : Option Nat → Bool
  | some v => v ∈ ids
  | none => false

/-- Find a table of the target database by name (the queries of
has_customer_id_column and count_rows hit this table; a missing table
makes DESCRIBE raise, caught as False, and COUNT raise, caught as 0). -/

def lookupTable (tdb : TargetDb) (n : Str) : Option TargetTable :=
  tdb.tables.find? fun t => t.name = n

/-- Translation of the per-table body of analyze_deletion_scope
(delete_migrated_data.py lines 174-194): read has_customer_id from the
TARGET, count rows in the TARGET (filtered only when the table has the
column and the id argument is truthy), record the filter string, and keep
the table only when the count is positive. -/

def analyzeTable (tdb : TargetDb) (customer_ids : Option (List Nat))
    (n : Str) : Option TableScope :=
  let tt := lookupTable tdb n
  let hasCust := match tt with
    | some t => t.hasCustomerId
    | none => false
  let cnt : Nat := match tt with
    | none => 0
    | some t =>
      if hasCust && idsTruthy customer_ids then
        t.rows.countP (rowMatchesIds (customer_ids.getD []))
      else t.rows.length
  let filt := if hasCust && idsTruthy customer_ids then
      filterStrOf (customer_ids.getD [])
    else allRowsStr
  if 0 < cnt then some ⟨n, cnt, hasCust, filt⟩ else none

/-- Translation of analyze_deletion_scope for one database (lines
160-199): restrict the SOURCE table list to the requested tables when
given, then analyze each against the target. -/

def analyze_deletion_scope (sourceTables : List Str) (tdb : TargetDb)
    (customer_ids : Option (List Nat)) (specific_tables : Option (List Str)) :
    List TableScope :=
  let tables := match specific_tables with
    | some sp => sourceTables.filter fun t => t ∈ sp
    | none => sourceTables
  tables.filterMap (analyzeTable tdb customer_ids)

/-- Character class of the id-extraction regex: a digit or a comma. -/

def isDigitOrComma (c : Char) : Bool := c.isDigit || c = ','

/-- Result of re-parsing the customer ids out of the filter string
(lines 349-352): the regex may not match at all (then no DELETE is
executed for the table), or it matches and the groups parse. -/

inductive ExtractRes where
  | noMatch
  | ids (l : List Nat)
deriving DecidableEq

/-- Match of the pattern customer_id IN followed by a parenthesized
nonempty run of digits and commas, anchored at the start of the string. -/

def matchIdsAt (s : Str) : Option Str :=
  let pre := "customer_id IN (".toList
  if s.take pre.length = pre then
    let rest := s.drop pre.length
    let run := rest.takeWhile isDigitOrComma
    if run ≠ [] ∧ (rest.drop run.length).take 1 = [')'] then some run
    else none
  else none

/-- Leftmost match of the id-extraction pattern (re.search scans every
start position). -/

def searchIdsRun : Str → Option Str
  | [] => none
  | c :: rest =>
    match matchIdsAt (c :: rest) with
    | some r => some r
    | none => searchIdsRun rest

/-- Split on commas, Python str.split(','). -/

def splitOnComma (s : Str) : List Str :=
  s.foldr (fun c acc =>
    if c = ',' then [] :: acc
    else match acc with
      | [] => [[c]]
      | g :: rest => (c :: g) :: rest) [[]]

/-- Value of a run of decimal digits. -/

def digitsVal (s : Str) : Nat :=
  s.foldl (fun acc c => acc * 10 + (c.toNat - '0'.toNat)) 0

/-- Model of extracting the id list from the recorded filter string
(lines 349-352): leftmost regex match, split the captured group on
commas, int() each part.  For the filter strings the analysis builds from
natural-number ids every comma-separated group is a nonempty digit run,
so int() cannot raise and is modelled as digitsVal. -/

def extractIdsFrom (s : Str) : ExtractRes :=
  match searchIdsRun s with
  | none => ExtractRes.noMatch
  | some run => ExtractRes.ids ((splitOnComma run).map digitsVal)

/-- A DELETE statement executed on the target (lines 354-359). -/

inductive DelStmt where
  | filtered (database table : Str) (ids : List Nat)
  | unfiltered (database table : Str)
deriving DecidableEq

/-- A deletion-log entry (lines 367-381): a successful deletion with the
row count reported by the driver and the recorded filter, or an error. -/

inductive DelLogEntry where
  | ok (database table : Str) (rows_deleted : Int) (filter : Str)
  | err (database table : Str) (msg : Str)
deriving DecidableEq

/-- The needle is a prefix of the haystack. -/

def hasPrefixStr (p s : Str) : Bool := s.take p.length = p

/-- Python substring containment (the in operator on strings). -/

def containsSub (needle : Str) : Str → Bool
  | [] => needle = []
  | c :: rest => hasPrefixStr needle (c :: rest) || containsSub needle rest

/-- Per-table body of execute_deletion (lines 340-381): when the analysis
recorded a customer_id filter, re-parse the ids from the filter string and
run a filtered DELETE (a failed regex match executes nothing but still
logs the driver rowcount of -1); otherwise run an unfiltered DELETE
removing every row.  The per-table error oracle models a raising
statement; the exception is caught and logged. -/

def execTableDeletion (errOracle : Str → Str → Option Str) (dbName : Str)
    (tt : Option TargetTable) (ts : TableScope) :
    Option TargetTable × Option DelStmt × DelLogEntry :=
  match errOracle dbName ts.name with
  | some e => (tt, none, DelLogEntry.err dbName ts.name e)
  | none =>
    if ts.has_customer_id && containsSub "customer_id IN".toList ts.filter_used then
      match extractIdsFrom ts.filter_used with
      | ExtractRes.ids ids =>
        (tt.map fun t =>
          { t with rows := t.rows.filter fun r => ¬ rowMatchesIds ids r = true },
         some (DelStmt.filtered dbName ts.name ids),
         DelLogEntry.ok dbName ts.name
           (Int.ofNat ((tt.map fun t => t.rows.countP (rowMatchesIds ids)).getD 0))
           ts.filter_used)
      | ExtractRes.noMatch =>
        (tt, none, DelLogEntry.ok dbName ts.name (-1) ts.filter_used)
    else
      (tt.map fun t => { t with rows := [] },
       some (DelStmt.unfiltered dbName ts.name),
       DelLogEntry.ok dbName ts.name
         (Int.ofNat ((tt.map fun t => t.rows.length).getD 0))
         ts.filter_used)

/-- Replace a table (by name) inside a target database. -/

def updateTable (tdb : TargetDb) (n : Str) (tt : Option TargetTable) : TargetDb :=
  match tt with
  | none => tdb
  | some t => ⟨tdb.name, tdb.tables.map fun u => if u.name = n then t else u⟩

/-- Deletion loop of execute_deletion over one database's analyzed
tables. -/

def execDbDeletion (errOracle : Str → Str → Option Str) (tdb : TargetDb)
    (scope : List TableScope) : TargetDb × List DelStmt × List DelLogEntry :=
  scope.foldl
    (fun acc ts =>
      (updateTable acc.1 ts.name
        (execTableDeletion errOracle acc.1.name (lookupTable acc.1 ts.name) ts).1,
       acc.2.1 ++ (match (execTableDeletion errOracle acc.1.name
          (lookupTable acc.1 ts.name) ts).2.1 with
          | some st => [st] | none => []),
       acc.2.2 ++ [(execTableDeletion errOracle acc.1.name
          (lookupTable acc.1 ts.name) ts).2.2]))
    (tdb, [], [])

/-- Translation of execute_deletion (lines 311-396): disable FK checks,
delete per database and table (per-table errors caught and logged),
re-enable FK checks in the finally block, then write the structured
deletion log.  Returns the final target databases, the executed
statements, the log, whether the log file was written, and the final
connection. -/

def execute_deletion (errOracle : Str → Str → Option Str)
    (target : List TargetDb) (analysis : List (Str × List TableScope))
    (c : DestConn) :
    List TargetDb × List DelStmt × List DelLogEntry × Bool × DestConn :=
  let c1 := setFK c false
  let res := analysis.foldl
    (fun acc dbscope =>
      match acc.1.find? fun d => d.name = dbscope.1 with
      | none => acc
      | some tdb =>
        let r := execDbDeletion errOracle tdb dbscope.2
        (acc.1.map fun d => if d.name = dbscope.1 then r.1 else d,
         acc.2.1 ++ r.2.1, acc.2.2 ++ r.2.2))
    (target, [], [])
  (res.1, res.2.1, res.2.2, true, setFK c1 true)

/-- Translation of get_deletion_confirmation (delete_migrated_data.py
lines 231-265): two stripped, lowercased yes/y prompts, then the typed
final confirmation compared, after str.strip, against the literal
DELETE DATA. -/

def get_deletion_confirmation (step1 step3 finalResp : Str) : Bool :=
  (lowerS (trimS step1) = "yes".toList || lowerS (trimS step1) = "y".toList) &&
  ((lowerS (trimS step3) = "yes".toList || lowerS (trimS step3) = "y".toList) &&
   (trimS finalResp = "DELETE DATA".toList))

/-- Observable effects of the delete script's main from the analysis
onward: final target databases, whether the backup ran, whether the
deletion log file was written, the executed statements, the log contents,
and the final connection. -/

structure DeleteEffects where
  target : List TargetDb
  backupMade : Bool
  logWritten : Bool
  stmts : List DelStmt
  log : List DelLogEntry
  conn : DestConn
deriving DecidableEq

/-- Translation of main of delete_migrated_data.py (lines 515-545) after
argument collection: analyze the scope; return with nothing changed when
there is nothing to delete, on --dry-run, and, without --no-confirmation,
when the stepped confirmation fails; otherwise optionally back up, then
execute the deletion and write the log file. -/

def delete_main (dryRun backup noConfirmation : Bool)
    (step1 step3 finalResp : Str)
    (errOracle : Str → Str → Option Str)
    (dbs : List (TargetDb × List Str))
    (customer_ids : Option (List Nat)) (specific : Option (List Str))
    (c : DestConn) : DeleteEffects :=
  if (dbs.map fun d =>
      ((analyze_deletion_scope d.2 d.1 customer_ids specific).map
        TableScope.row_count).sum).sum = 0 then
    ⟨dbs.map Prod.fst, false, false, [], [], c⟩
  else if dryRun then ⟨dbs.map Prod.fst, false, false, [], [], c⟩
  else if ¬ noConfirmation = true ∧
      ¬ get_deletion_confirmation step1 step3 finalResp = true then
    ⟨dbs.map Prod.fst, false, false, [], [], c⟩
  else
    match execute_deletion errOracle (dbs.map Prod.fst)
      (dbs.map fun d =>
        (d.1.name, analyze_deletion_scope d.2 d.1 customer_ids specific)) c with
    | (tgt, stmts, log, lw, conn) => ⟨tgt, backup, lw, stmts, log, conn⟩

/-- Concrete target database D with one table X lacking customer_id and
holding one row. -/

def tdbD : TargetDb := ⟨"D".toList, [⟨"X".toList, false, [none]⟩]⟩

/-- The DELETE statement chosen for one analyzed table; it depends only on
the analysis record and the error oracle, never on the current table
contents. -/

def stmtChoice (errOracle : Str → Str → Option Str) (dbName : Str)
    (ts : TableScope) : Option DelStmt :=
  (execTableDeletion errOracle dbName none ts).2.1

/-!
Batched row migration accounting
(migrate_customer_data_v3.py lines 686-725, 767-806, 842-918).
-/

/-- Statistics dictionary of migrate_table_data (lines 852-857); the
skipped counter is never touched on this path and is omitted. -/

structure MigStats where
  total_rows : Nat
  inserted : Nat
  failed : Nat
deriving DecidableEq

/-- Translation of insert_data_batch (lines 767-806): every row of the
batch is inserted with INSERT IGNORE; the per-row oracle models whether
pymysql raises for that row; successes and failures are counted and the
pair is returned after the commit. -/

def insert_data_batch {Row : Type} (ok : Row → Bool) (batch : List Row) :
    Nat × Nat :=
  batch.foldl
    (fun acc r => if ok r then (acc.1 + 1, acc.2) else (acc.1, acc.2 + 1))
    (0, 0)

/-- The batch loop of migrate_table_data (lines 887-917) for a reference
table (no filter): while offset is below the counted total, fetch the page
LIMIT batchSize OFFSET offset of the stable row list, stop on an empty
page, insert it accumulating successful and failed counts, and advance the
offset by the batch size.  Fuel makes the recursion structural; the wrapper
passes more fuel than the loop can consume. -/

def migrateLoop {Row : Type} (ok : Row → Bool) (rows : List Row)
    (batchSize : Nat) : Nat → Nat → Nat → Nat → MigStats
  | 0, _, ins, fail => ⟨rows.length, ins, fail⟩
  | fuel + 1, offset, ins, fail =>
    if offset < rows.length then
      if ((rows.drop offset).take batchSize).isEmpty then
        ⟨rows.length, ins, fail⟩
      else
        migrateLoop ok rows batchSize fuel (offset + batchSize)
          (ins + (insert_data_batch ok ((rows.drop offset).take batchSize)).1)
          (fail + (insert_data_batch ok ((rows.drop offset).take batchSize)).2)
    else ⟨rows.length, ins, fail⟩

/-- Translation of migrate_table_data (lines 842-918) for a reference
table: count the rows, return immediately when the count is zero (line
871), otherwise run the batch loop from offset 0. -/

def migrate_table_data {Row : Type} (ok : Row → Bool) (rows : List Row)
    (batchSize : Nat) : MigStats :=
  if rows.length = 0 then ⟨0, 0, 0⟩
  else migrateLoop ok rows batchSize (rows.length + 1) 0 0 0

/-!
Foreign-key stripping from CREATE TABLE text
(migrate_databases.py lines 126-153).  The regex at line 134 is modelled
by a deterministic matcher: every quantifier in the pattern is followed by
a token its character class cannot match, so greedy matching never needs
to backtrack and maximal munch is equivalent to the regex semantics.
-/

/-- Match a single given character. -/

def charM (c : Char) (s : Str) : Option Str :=
  match s with
  | x :: rest => if x = c then some rest else none
  | [] => none

/-- Match the regex s-star: drop a maximal whitespace run (always
succeeds). -/

def wsStarM (s : Str) : Str := s.dropWhile Char.isWhitespace

/-- Match the regex s-plus: at least one whitespace character, maximal
run. -/

def wsPlusM (s : Str) : Option Str :=
  match s with
  | c :: rest =>
    if c.isWhitespace then some ((c :: rest).dropWhile Char.isWhitespace)
    else none
  | [] => none

/-- Match a literal word case-insensitively (re.IGNORECASE). -/

def litCIM (w : Str) (s : Str) : Option Str :=
  if lowerS (s.take w.length) = lowerS w then some (s.drop w.length)
  else none

/-- Match one-or-more characters different from the stop character,
greedily. -/

def manyNotM (stopc : Char) (s : Str) : Option Str :=
  let run := s.takeWhile fun c => ¬ c = stopc
  if run = [] then none else some (s.drop run.length)

/-- Match a backtick-quoted name. -/

def backtickedM (s : Str) : Option Str :=
  ((charM '\x60' s).bind (manyNotM '\x60')).bind (charM '\x60')

/-- Match a parenthesized group with no nested closing parenthesis. -/

def parenGroupM (s : Str) : Option Str :=
  ((charM '(' s).bind (manyNotM ')')).bind (charM ')')

/-- Match the referential-action alternation CASCADE, SET NULL, NO ACTION
or RESTRICT, in the order of the pattern. -/

def actionM (s : Str) : Option Str :=
  match litCIM "cascade".toList s with
  | some r => some r
  | none =>
    match ((litCIM "set".toList s).bind wsPlusM).bind
        (litCIM "null".toList) with
    | some r => some r
    | none =>
      match ((litCIM "no".toList s).bind wsPlusM).bind
          (litCIM "action".toList) with
      | some r => some r
      | none => litCIM "restrict".toList s

/-- Match the optional ON DELETE / ON UPDATE clause for the given word;
on failure the optional group matches the empty string. -/

def onClauseM (word : Str) (s : Str) : Str :=
  match (((((wsPlusM s).bind (litCIM "on".toList)).bind wsPlusM).bind
      (litCIM word)).bind wsPlusM).bind actionM with
  | some r => r
  | none => s

/-- Match the whole FK-constraint pattern of line 134 anchored at the
start of the string, returning the matched length: optional comma,
whitespace, CONSTRAINT, name, FOREIGN KEY, column group, REFERENCES,
table, column group, then the two optional ON clauses. -/

def matchFkAt (s : Str) : Option Nat :=
  let afterComma := match charM ',' s with
    | some r => r
    | none => s
  let t := wsStarM afterComma
  match (((((((((((litCIM "constraint".toList t).bind wsPlusM).bind
      backtickedM).bind wsPlusM).bind (litCIM "foreign".toList)).bind
      wsPlusM).bind (litCIM "key".toList)).bind wsPlusM).bind
      parenGroupM).bind wsPlusM).bind (litCIM "references".toList)).bind
      wsPlusM with
  | none => none
  | some u =>
    match ((backtickedM u).bind wsPlusM).bind parenGroupM with
    | none => none
    | some v =>
      let v2 := onClauseM "delete".toList v
      let v3 := onClauseM "update".toList v2
      some (s.length - v3.length)

/-- Left-to-right non-overlapping scan of re.finditer / re.sub: at each
position try the pattern; on a match record its span and resume after it.
Fuel makes the recursion structural; a match always consumes at least one
character. -/

def findFkSpansAux : Nat → Str → Nat → List (Nat × Nat)
  | 0, _, _ => []
  | _ + 1, [], _ => []
  | fuel + 1, c :: rest, pos =>
    match matchFkAt (c :: rest) with
    | some (Nat.succ len) =>
      (pos, len + 1) ::
        findFkSpansAux fuel ((c :: rest).drop (len + 1)) (pos + len + 1)
    | _ => findFkSpansAux fuel rest (pos + 1)

/-- The spans of the FK matches of a statement. -/

def findFkSpans (s : Str) : List (Nat × Nat) :=
  findFkSpansAux (s.length + 1) s 0

/-- Remove the listed spans (absolute position and length, ascending and
non-overlapping as produced by the scan) from the string. -/

def removeSpansAux : Str → Nat → List (Nat × Nat) → Str
  | s, _, [] => s
  | s, base, sp :: rest =>
    s.take (sp.1 - base) ++
      removeSpansAux (s.drop (sp.1 - base + sp.2)) (sp.1 + sp.2) rest

/-- Single left-to-right replacement pass of re.sub for a fixed pattern:
scanning resumes after each replaced match, never inside the
replacement. -/

def subPatAux (matchAt : Str → Option Nat) (repl : Str) :
    Nat → Str → Str
  | 0, s => s
  | _ + 1, [] => []
  | fuel + 1, c :: rest =>
    match matchAt (c :: rest) with
    | some (Nat.succ len) =>
      repl ++ subPatAux matchAt repl fuel ((c :: rest).drop (len + 1))
    | _ => c :: subPatAux matchAt repl fuel rest

/-- Match of the cleanup pattern comma-whitespace-comma. -/

def matchCommaCommaAt (s : Str) : Option Nat :=
  match charM ',' s with
  | none => none
  | some r1 =>
    match charM ',' (wsStarM r1) with
    | some r3 => some (s.length - r3.length)
    | none => none

/-- Match of the cleanup pattern comma-whitespace-closing-parenthesis. -/

def matchCommaParenAt (s : Str) : Option Nat :=
  match charM ',' s with
  | none => none
  | some r1 =>
    match charM ')' (wsStarM r1) with
    | some r3 => some (s.length - r3.length)
    | none => none

/-- Clean one matched FK clause for the returned list (lines 139-144):
strip it, and drop one leading comma then strip again. -/

def cleanFkDef (raw : Str) : Str :=
  let t := trimS raw
  if t.take 1 = [','] then trimS (t.drop 1) else t

/-- Translation of strip_foreign_keys (migrate_databases.py lines
126-153): collect the FK matches, remove them from the statement, then
run the two comma-cleanup substitutions, and return the modified
statement together with the cleaned matched clauses. -/

def strip_foreign_keys (s : Str) : Str × List Str :=
  let spans := findFkSpans s
  let fks := spans.map fun sp => cleanFkDef ((s.drop sp.1).take sp.2)
  let removed := removeSpansAux s 0 spans
  let c1 := subPatAux matchCommaCommaAt [','] (removed.length + 1) removed
  let c2 := subPatAux matchCommaParenAt [')'] (c1.length + 1) c1
  (c2, fks)

/-- CREATE-statement fragment on which stripping is not idempotent:
removing the middle FK clause splices the dangling name before it onto
the dangling FOREIGN KEY after it, forming a fresh match. -/

def sSplice : Str :=
  "CONSTRAINT `y` ,CONSTRAINT `x` FOREIGN KEY (a) REFERENCES `t` (b) FOREIGN KEY (c) REFERENCES `u` (d)".toList

/-- Realistic CREATE TABLE text with one FK clause and an ON DELETE
action. -/

def sCreate : Str :=
  "CREATE TABLE `t` (\n  `id` int NOT NULL,\n  `cid` int DEFAULT NULL,\n  PRIMARY KEY (`id`),\n  CONSTRAINT `fk1` FOREIGN KEY (`cid`) REFERENCES `c` (`id`) ON DELETE CASCADE\n)".toList

/-!
Theorems: the ten claims, their witnesses and counterexamples, and the
supporting lemmas.
-/

theorem lowerS_append (a b : Str) : lowerS (a ++ b) = lowerS a ++ lowerS b :=
  List.map_append _ a b

theorem lowerS_dot_cons (t : Str) : lowerS ('.' :: t) = '.' :: lowerS t := by
  have h : Char.toLower '.' = '.' := by decide
  simp [lowerS, h]

theorem lowerS_full (database table : Str) :
    lowerS (database ++ '.' :: table) = lowerS database ++ '.' :: lowerS table := by
  rw [lowerS_append, lowerS_dot_cons]

theorem lowerS_ne_nil {t : Str} (h : t ≠ []) : lowerS t ≠ [] := by
  simpa [lowerS] using h

/-- Dropping to the last two characters and matching the prefix is the same
as being that prefix followed by the two characters. -/
theorem dropTwo_take_iff (p d : Str) (c₁ c₂ : Char) :
    (p.drop (p.length - 2) = [c₁, c₂] ∧ d = p.take (p.length - 2)) ↔
      p = d ++ [c₁, c₂] := by
  constructor
  · rintro ⟨h1, h2⟩
    conv_lhs => rw [← List.take_append_drop (p.length - 2) p]
    rw [h1, ← h2]
  · rintro rfl
    have hl : (d ++ [c₁, c₂]).length - 2 = d.length := by simp
    rw [hl]
    exact ⟨List.drop_left d [c₁, c₂], (List.take_left d [c₁, c₂]).symm⟩

/-- Taking the first two characters and matching the remainder is the same
as being those two characters followed by the remainder. -/
theorem takeTwo_drop_iff (p t : Str) (c₁ c₂ : Char) :
    (p.take 2 = [c₁, c₂] ∧ t = p.drop 2) ↔ p = c₁ :: c₂ :: t := by
  constructor
  · rintro ⟨h1, h2⟩
    conv_lhs => rw [← List.take_append_drop 2 p]
    rw [h1, ← h2]
    rfl
  · rintro rfl
    exact ⟨rfl, rfl⟩

theorem skipCodeTok_eq_spec (database table tok : Str)
    (ht : trimS tok = tok) (hne : tok ≠ []) :
    skipCodeTok database table tok = skipSpecTok database table tok := by
  have hp : lowerS (trimS tok) = lowerS tok := by rw [ht]
  have hpn : lowerS tok ≠ [] := lowerS_ne_nil hne
  unfold skipCodeTok skipSpecTok
  simp only [hp, if_neg hpn, lowerS_full]
  apply Bool.eq_iff_iff.mpr
  simp only [Bool.or_eq_true, Bool.and_eq_true, decide_eq_true_eq, or_assoc]
  constructor
  · rintro (h | ⟨h1, h2⟩ | ⟨h1, h2⟩)
    · exact Or.inl h
    · exact Or.inr (Or.inl ((dropTwo_take_iff _ _ _ _).mp ⟨h1, h2⟩))
    · exact Or.inr (Or.inr ((takeTwo_drop_iff _ _ _ _).mp ⟨h1, h2⟩))
  · rintro (h | h | h)
    · exact Or.inl h
    · exact Or.inr (Or.inl ((dropTwo_take_iff _ _ _ _).mpr h))
    · exact Or.inr (Or.inr ((takeTwo_drop_iff _ _ _ _).mpr h))

theorem forceCodeTok_eq_spec (database table tok : Str)
    (ht : trimS tok = tok) (hne : tok ≠ []) :
    forceCodeTok database table tok = forceSpecTok database table tok := by
  have hp : lowerS (trimS tok) = lowerS tok := by rw [ht]
  have hpn : lowerS tok ≠ [] := lowerS_ne_nil hne
  unfold forceCodeTok forceSpecTok
  simp only [hp, if_neg hpn, lowerS_full]
  apply Bool.eq_iff_iff.mpr
  simp only [Bool.or_eq_true, Bool.and_eq_true, decide_eq_true_eq,
    Bool.not_eq_true', or_assoc]
  constructor
  · rintro (h | ⟨h1, h2⟩ | ⟨h1, h2⟩)
    · exact Or.inl h
    · exact Or.inr (Or.inl ((takeTwo_drop_iff _ _ _ _).mp ⟨h1, h2⟩))
    · exact Or.inr (Or.inr ⟨h1, h2.symm⟩)
  · rintro (h | h | ⟨h1, h2⟩)
    · exact Or.inl h
    · exact Or.inr (Or.inl ((takeTwo_drop_iff _ _ _ _).mpr h))
    · exact Or.inr (Or.inr ⟨h1, h2.symm⟩)

theorem any_congr_mem {α : Type} {l : List α} {p q : α → Bool}
    (h : ∀ a ∈ l, p a = q a) : l.any p = l.any q := by
  induction l with
  | nil => rfl
  | cons a l ih =>
    simp only [List.any_cons]
    rw [h a (by simp), ih fun b hb => h b (by simp [hb])]

/-- C5: For pattern lists whose tokens are whitespace-trimmed and nonempty
(exactly the tokens produced by the environment parsing at lines 107-119),
skip matching accepts precisely the tokens of shape DB.TABLE, DB.*, or
*.TABLE, and force matching precisely those of shape DB.TABLE, *.TABLE, or
a bare TABLE name, all compared case-insensitively in database, table and
pattern. -/
theorem c5_pattern_grammar (database table : Str) (toks : List Str)
    (h : ∀ tok ∈ toks, trimS tok = tok ∧ tok ≠ []) :
    should_skip_table database table toks = skipSpec database table toks ∧
    should_force_migrate database table toks = forceSpec database table toks := by
  constructor
  · exact any_congr_mem fun tok htok =>
      skipCodeTok_eq_spec database table tok (h tok htok).1 (h tok htok).2
  · exact any_congr_mem fun tok htok =>
      forceCodeTok_eq_spec database table tok (h tok htok).1 (h tok htok).2

/-- Witness for c5_pattern_grammar on a concrete database, table and
pattern list. -/
theorem c5_pattern_grammar_witness :
    (∀ tok ∈ [('s' :: "tarfox.*".toList), "*.Role".toList], trimS tok = tok ∧ tok ≠ []) ∧
    (should_skip_table "StarFox".toList "ROLE".toList
        [('s' :: "tarfox.*".toList), "*.Role".toList] =
      skipSpec "StarFox".toList "ROLE".toList
        [('s' :: "tarfox.*".toList), "*.Role".toList] ∧
     should_force_migrate "StarFox".toList "ROLE".toList
        [('s' :: "tarfox.*".toList), "*.Role".toList] =
      forceSpec "StarFox".toList "ROLE".toList
        [('s' :: "tarfox.*".toList), "*.Role".toList]) :=
  ⟨by decide, c5_pattern_grammar _ _ _ (by decide)⟩

theorem stripAllS_unfold (s : Str) :
    stripAllS s = if s.getLast? = some 's' then stripAllS s.dropLast else s := by
  rw [stripAllS.eq_def]
  split <;> rfl

theorem stripAllS_reverse (r : Str) :
    stripAllS r.reverse = (r.dropWhile (· = 's')).reverse := by
  induction r with
  | nil => rw [stripAllS_unfold]; simp
  | cons c r ih =>
    rw [List.reverse_cons, stripAllS_unfold]
    by_cases hc : c = 's'
    · subst hc
      simp only [List.getLast?_concat, List.dropLast_concat, if_pos rfl]
      rw [ih]
      simp [List.dropWhile_cons]
    · simp only [List.getLast?_concat]
      rw [if_neg (by simpa using hc)]
      simp [List.dropWhile_cons, hc]

theorem rstripS_eq_stripAllS (s : Str) : rstripS s = stripAllS s := by
  have h := stripAllS_reverse s.reverse
  rw [List.reverse_reverse] at h
  rw [rstripS, ← h]

/-- C6 counterexample: for column boss_id (stem boss, not reserved) and
table list [bos], the claim predicts that the third candidate -- the stem
with ONE trailing s removed, bos -- resolves and yields an implicit FK, but
the code (which strips ALL trailing s, giving bo) detects nothing. -/
theorem c6_counterexample :
    fkStem "boss_id".toList = some "boss".toList ∧
    lowerS "boss_id".toList ∉ reservedCols ∧
    find_table_case_insensitive ["bos".toList] (trimOneS "boss".toList) =
      some "bos".toList ∧
    detect_implicit_foreign_keys ["boss_id".toList] ["bos".toList] = [] := by
  decide

theorem implicitFkFor_eq_spec (all_tables : List Str) (column : Str) :
    implicitFkFor all_tables column = implicitFkSpec all_tables column := by
  by_cases hres : lowerS column ∈ reservedCols
  · simp [implicitFkFor, implicitFkSpec, hres]
  · cases hstem : fkStem column with
    | none => simp [implicitFkFor, implicitFkSpec, hres, hstem]
    | some stem =>
      simp only [implicitFkFor, implicitFkSpec, if_neg hres, hstem]
      rw [rstripS_eq_stripAllS]
      cases h1 : find_table_case_insensitive all_tables stem <;>
      cases h2 : find_table_case_insensitive all_tables (stem ++ ['s']) <;>
      cases h3 : find_table_case_insensitive all_tables (stripAllS stem) <;>
      simp [List.findSome?, h1, h2, h3]

/-- C6 amended: implicit FK detection tries, in order, the candidates stem,
stem plus s, and stem with ALL trailing s characters removed, resolving
each case-insensitively against the table list; the first match yields an
implicit FK with null referenced column, and reserved columns yield none. -/
theorem c6_implicit_fk_amended (columns all_tables : List Str) :
    detect_implicit_foreign_keys columns all_tables =
      columns.filterMap (implicitFkSpec all_tables) :=
  List.filterMap_congr fun c _ => implicitFkFor_eq_spec all_tables c

theorem foldl_chainStep_some (rec : Str → List Str → Option Chain × List Str)
    (t : Str) (r : Chain) (v : List Str) (fks : List FK) :
    fks.foldl (chainStep rec t) (some r, v) = (some r, v) := by
  induction fks with
  | nil => rfl
  | cons fk rest ih => simpa [chainStep] using ih

theorem unvisited_mono (U : List Str) {v v' : List Str} (h : v ⊆ v') :
    unvisited U v' ≤ unvisited U v := by
  apply List.countP_mono_left
  intro x _ hx
  simp only [decide_eq_true_eq] at hx ⊢
  exact fun hxv => hx (h hxv)

theorem unvisited_cons_of_mem {U : List Str} (hU : U.Nodup) {t : Str}
    {v : List Str} (htU : t ∈ U) (htv : t ∉ v) :
    unvisited U (t :: v) + 1 = unvisited U v := by
  induction U with
  | nil => simp at htU
  | cons a U ih =>
    rw [List.nodup_cons] at hU
    simp only [unvisited, List.countP_cons] at *
    rcases List.mem_cons.mp htU with rfl | haU
    · have hcong : List.countP (fun x => decide (x ∉ t :: v)) U =
          List.countP (fun x => decide (x ∉ v)) U := by
        apply List.countP_congr
        intro x hx
        have hxt : x ≠ t := fun he => hU.1 (he ▸ hx)
        simp [List.mem_cons, hxt]
      have h1 : decide (t ∉ t :: v) = false := by simp
      have h2 : decide (t ∉ v) = true := by simpa using htv
      rw [hcong, h1, h2]
      simp
    · have hres := ih hU.2 haU
      have hat : a ≠ t := fun he => hU.1 (he ▸ haU)
      have heq : decide (a ∉ t :: v) = decide (a ∉ v) := by
        simp [List.mem_cons, hat]
      rw [heq]
      omega

theorem NewClosed_trans {g : FKMap} {cust user : List Str}
    {v v1 v2 : List Str} (h1 : NewClosed g cust user v v1)
    (h2 : NewClosed g cust user v1 v2) (hsub : v1 ⊆ v2) :
    NewClosed g cust user v v2 := by
  intro x hx
  rcases h2 x hx with hxv1 | hcl
  · rcases h1 x hxv1 with hxv | ⟨hc, hu, hsucc⟩
    · exact Or.inl hxv
    · exact Or.inr ⟨hc, hu, fun fk hfk => hsub (hsucc fk hfk)⟩
  · exact Or.inr hcl

theorem chainAux_sound (g : FKMap) (cust user : List Str) :
    ∀ fuel t v r v',
      chainAux g cust user fuel t v = (some r, v') →
      r.chain.head? = some t ∧ validChain g (cust ++ user) r.chain = true := by
  intro fuel
  induction fuel with
  | zero => intro t v r v' h; simp [chainAux] at h
  | succ fuel ih =>
    have hloop : ∀ t (fks : List FK), (∀ fk ∈ fks, fk ∈ fksOf g t) →
        ∀ w r v',
          fks.foldl (chainStep (chainAux g cust user fuel) t) (none, w) = (some r, v') →
          r.chain.head? = some t ∧ validChain g (cust ++ user) r.chain = true := by
      intro t fks
      induction fks with
      | nil => intro _ w r v' h; simp at h
      | cons fk rest ihr =>
        intro hsub w r v' h
        rw [List.foldl_cons] at h
        rcases ha : chainAux g cust user fuel fk.referenced_table w with ⟨o, v1⟩
        cases o with
        | some r1 =>
          simp only [chainStep, ha] at h
          rw [foldl_chainStep_some] at h
          have hr : (⟨r1.idType, t :: r1.chain, some fk⟩ : Chain) = r :=
            Option.some.inj (congrArg Prod.fst h)
          obtain ⟨hhead, hvalid⟩ := ih fk.referenced_table w r1 v1 ha
          subst hr
          constructor
          · rfl
          · rcases hc : r1.chain with _ | ⟨c, tail⟩
            · rw [hc] at hhead; simp at hhead
            · rw [hc] at hhead hvalid
              have hct : c = fk.referenced_table := by simpa using hhead
              subst hct
              simp only [validChain, Bool.and_eq_true]
              refine ⟨?_, hvalid⟩
              exact List.any_eq_true.mpr
                ⟨fk, hsub fk (List.mem_cons_self fk rest), by simp⟩
        | none =>
          simp only [chainStep, ha] at h
          exact ihr (fun fk hfk => hsub fk (List.mem_cons_of_mem _ hfk)) v1 r v' h
    intro t v r v' h
    simp only [chainAux] at h
    by_cases hv : t ∈ v
    · rw [if_pos hv] at h
      simp at h
    · rw [if_neg hv] at h
      by_cases hc : t ∈ cust
      · rw [if_pos hc] at h
        have hr : (⟨"customer_id".toList, [t], none⟩ : Chain) = r :=
          Option.some.inj (congrArg Prod.fst h)
        subst hr
        refine ⟨rfl, ?_⟩
        simp [validChain, List.mem_append, hc]
      · rw [if_neg hc] at h
        by_cases hu : t ∈ user
        · rw [if_pos hu] at h
          have hr : (⟨"user_id".toList, [t], none⟩ : Chain) = r :=
            Option.some.inj (congrArg Prod.fst h)
          subst hr
          refine ⟨rfl, ?_⟩
          simp [validChain, List.mem_append, hu]
        · rw [if_neg hu] at h
          exact hloop t (fksOf g t) (fun fk hfk => hfk) (t :: v) r v' h

theorem chainAux_complete (g : FKMap) (cust user : List Str) (U : List Str)
    (hU : U.Nodup)
    (hsucc : ∀ x, ∀ fk ∈ fksOf g x, fk.referenced_table ∈ U) :
    ∀ fuel t v v1, t ∈ U → unvisited U v + 1 ≤ fuel →
      chainAux g cust user fuel t v = (none, v1) →
      t ∈ v1 ∧ v ⊆ v1 ∧ NewClosed g cust user v v1 := by
  intro fuel
  induction fuel with
  | zero => intro t v v1 htU hfuel h; omega
  | succ fuel ih =>
    have hloop : ∀ t, ∀ (fks : List FK), (∀ fk ∈ fks, fk.referenced_table ∈ U) →
        ∀ w w1, unvisited U w + 1 ≤ fuel →
          fks.foldl (chainStep (chainAux g cust user fuel) t) (none, w) = (none, w1) →
          w ⊆ w1 ∧ (∀ fk ∈ fks, fk.referenced_table ∈ w1) ∧
            NewClosed g cust user w w1 := by
      intro t fks
      induction fks with
      | nil =>
        intro _ w w1 _ h
        have hw : w = w1 := by simpa using h
        subst hw
        exact ⟨fun x hx => hx, by simp, fun x hx => Or.inl hx⟩
      | cons fk rest ihr =>
        intro hsub w w1 hfuel h
        rw [List.foldl_cons] at h
        rcases ha : chainAux g cust user fuel fk.referenced_table w with ⟨o, v2⟩
        cases o with
        | some r1 =>
          simp only [chainStep, ha] at h
          rw [foldl_chainStep_some] at h
          exact absurd (congrArg Prod.fst h) (by simp)
        | none =>
          simp only [chainStep, ha] at h
          obtain ⟨hfkv, hwv, hnc⟩ := ih fk.referenced_table w v2
            (hsub fk (List.mem_cons_self fk rest)) hfuel ha
          have hfuel2 : unvisited U v2 + 1 ≤ fuel := by
            have := unvisited_mono U hwv
            omega
          obtain ⟨hv2w1, hrestw1, hnc2⟩ := ihr
            (fun fk2 h2 => hsub fk2 (List.mem_cons_of_mem _ h2)) v2 w1 hfuel2 h
          refine ⟨fun x hx => hv2w1 (hwv hx), ?_, NewClosed_trans hnc hnc2 hv2w1⟩
          intro fk2 hfk2
          rcases List.mem_cons.mp hfk2 with rfl | h2
          · exact hv2w1 hfkv
          · exact hrestw1 fk2 h2
    intro t v v1 htU hfuel h
    simp only [chainAux] at h
    by_cases hv : t ∈ v
    · rw [if_pos hv] at h
      have hw : v = v1 := by simpa using h
      subst hw
      exact ⟨hv, fun x hx => hx, fun x hx => Or.inl hx⟩
    · rw [if_neg hv] at h
      by_cases hc : t ∈ cust
      · rw [if_pos hc] at h
        exact absurd (congrArg Prod.fst h) (by simp)
      · rw [if_neg hc] at h
        by_cases hu : t ∈ user
        · rw [if_pos hu] at h
          exact absurd (congrArg Prod.fst h) (by simp)
        · rw [if_neg hu] at h
          have hdec : unvisited U (t :: v) + 1 = unvisited U v :=
            unvisited_cons_of_mem hU htU hv
          have hfuel2 : unvisited U (t :: v) + 1 ≤ fuel := by omega
          obtain ⟨hsub1, hsuccs, hnc⟩ := hloop t (fksOf g t)
            (fun fk hfk => hsucc t fk hfk) (t :: v) v1 hfuel2 h
          refine ⟨hsub1 (List.mem_cons_self t v),
            fun x hx => hsub1 (List.mem_cons_of_mem t hx), ?_⟩
          intro x hx
          rcases hnc x hx with hxtv | hcl
          · rcases List.mem_cons.mp hxtv with rfl | hxv
            · exact Or.inr ⟨hc, hu, hsuccs⟩
            · exact Or.inl hxv
          · exact Or.inr hcl

theorem closed_no_validChain (g : FKMap) (cust user : List Str) (V : List Str)
    (hV : ∀ x ∈ V, x ∉ cust ∧ x ∉ user ∧
      ∀ fk ∈ fksOf g x, fk.referenced_table ∈ V) :
    ∀ l a, validChain g (cust ++ user) l = true → l.head? = some a → a ∉ V := by
  intro l
  induction l with
  | nil => intro a hval; simp [validChain] at hval
  | cons b tail ih =>
    intro a hval hhead haV
    have hab : b = a := by simpa using hhead
    subst hab
    cases tail with
    | nil =>
      have hmem : b ∈ cust ++ user := by simpa [validChain] using hval
      rcases List.mem_append.mp hmem with hm | hm
      · exact (hV b haV).1 hm
      · exact (hV b haV).2.1 hm
    | cons c rest =>
      simp only [validChain, Bool.and_eq_true] at hval
      obtain ⟨hedge, hval2⟩ := hval
      obtain ⟨fk, hfk, hre⟩ := List.any_eq_true.mp hedge
      have hcV : c ∈ V := by
        have hs := (hV b haV).2.2 fk hfk
        rwa [show fk.referenced_table = c from by simpa using hre] at hs
      exact ih c hval2 rfl hcV

theorem mem_chainUniverse_of_fk (g : FKMap) (t : Str) :
    ∀ x, ∀ fk ∈ fksOf g x, fk.referenced_table ∈ chainUniverse g t := by
  intro x fk hfk
  apply List.mem_dedup.mpr
  apply List.mem_cons_of_mem
  apply List.mem_flatMap.mpr
  unfold fksOf at hfk
  rcases hf : g.find? fun p => p.1 = x with _ | p
  · rw [hf] at hfk; simp at hfk
  · rw [hf] at hfk
    exact ⟨p, List.mem_of_find?_eq_some hf, List.mem_map.mpr ⟨fk, hfk, rfl⟩⟩

theorem chainUniverse_fuel (g : FKMap) (t : Str) :
    unvisited (chainUniverse g t) [] + 1 ≤ chainFuel g := by
  have h1 : unvisited (chainUniverse g t) [] = (chainUniverse g t).length := by
    simp [unvisited, List.countP_true]
  have h2 : (chainUniverse g t).length ≤ 1 + totalFks g := by
    have hs := List.Sublist.length_le (List.dedup_sublist
      (t :: g.flatMap fun p => p.2.map fun fk => fk.referenced_table))
    have hb : (g.flatMap fun p => p.2.map fun fk => fk.referenced_table).length =
        totalFks g := by
      rw [List.length_flatMap]
      unfold totalFks
      congr 1
      apply List.map_congr_left
      intro p _
      simp
    simp only [chainUniverse]
    calc (chainUniverse g t).length ≤ (t :: g.flatMap fun p => p.2.map fun fk => fk.referenced_table).length := hs
    _ = 1 + totalFks g := by simp [hb, Nat.add_comm]
  unfold chainFuel
  omega

/-- C4 amended: whenever some FK path exists from the target table to a
tenant- or user-bearing table, the resolver returns a chain, and any chain
it returns is itself such a path starting at the target table -- the first
one found by depth-first search, not necessarily the shortest one. -/
theorem c4_resolver_amended (g : FKMap) (cust user : List Str) (t : Str) :
    ((∃ l, l.head? = some t ∧ validChain g (cust ++ user) l = true) →
      ∃ r, build_relationship_chain t g cust user = some r) ∧
    ∀ r, build_relationship_chain t g cust user = some r →
      r.chain.head? = some t ∧ validChain g (cust ++ user) r.chain = true := by
  constructor
  · rintro ⟨l, hhead, hval⟩
    unfold build_relationship_chain
    rcases hres : chainAux g cust user (chainFuel g) t [] with ⟨o, v1⟩
    cases o with
    | some r => exact ⟨r, rfl⟩
    | none =>
      exfalso
      have htU : t ∈ chainUniverse g t := by
        apply List.mem_dedup.mpr
        exact List.mem_cons_self _ _
      obtain ⟨htv1, _, hnc⟩ := chainAux_complete g cust user (chainUniverse g t)
        (List.nodup_dedup _) (mem_chainUniverse_of_fk g t)
        (chainFuel g) t [] v1 htU (chainUniverse_fuel g t) hres
      have hclosed : ∀ x ∈ v1, x ∉ cust ∧ x ∉ user ∧
          ∀ fk ∈ fksOf g x, fk.referenced_table ∈ v1 := by
        intro x hx
        rcases hnc x hx with hx0 | hcl
        · simp at hx0
        · exact hcl
      exact closed_no_validChain g cust user v1 hclosed l t hval hhead htv1
  · intro r hr
    unfold build_relationship_chain at hr
    rcases hres : chainAux g cust user (chainFuel g) t [] with ⟨o, v1⟩
    rw [hres] at hr
    cases o with
    | none => simp at hr
    | some r0 =>
      have hr0 : r0 = r := by simpa using hr
      subst hr0
      exact chainAux_sound g cust user (chainFuel g) t [] r0 v1 hres

/-- C4 counterexample: in the graph t -> a, t -> b, a -> b with b the only
tenant-bearing table, a valid FK path of length 2 (namely t, b) exists and
no length-1 path does, yet the resolver returns the DFS-first chain
(t, a, b) of length 3: the returned chain length is not the length of the
shortest FK path. -/
theorem c4_counterexample :
    ((build_relationship_chain "t".toList gShort ["b".toList] []).map
        fun r => r.chain.length) = some 3 ∧
    validChain gShort (["b".toList] ++ []) ["t".toList, "b".toList] = true ∧
    validChain gShort (["b".toList] ++ []) ["t".toList] = false := by
  decide

/-- Witness for c4_resolver_amended at a concrete graph, discharging the
path-existence hypothesis with the explicit path (t, b). -/
theorem c4_resolver_amended_witness :
    ∃ r, build_relationship_chain "t".toList gShort ["b".toList] [] = some r :=
  (c4_resolver_amended gShort ["b".toList] [] "t".toList).1
    ⟨["t".toList, "b".toList], by decide, by decide⟩

theorem filterMap_name_sublist {α β γ : Type} (l : List α) (p : α → Option γ)
    (g : α → β) :
    List.Sublist (l.filterMap fun x => (p x).map fun _ => g x) (l.map g) := by
  induction l with
  | nil => simp
  | cons a l ih =>
    rw [List.filterMap_cons, List.map_cons]
    cases hp : p a with
    | none => simpa using ih.cons (g a)
    | some c => simpa using ih.cons₂ (g a)

theorem foldl_erase_sublist (names : List Str) :
    ∀ l : List Str,
      List.Sublist (names.foldl (fun acc n => acc.erase n) l) l := by
  induction names with
  | nil => intro l; exact List.Sublist.refl l
  | cons n rest ih =>
    intro l
    exact (ih (l.erase n)).trans (List.erase_sublist n l)

theorem foldl_erase_not_mem (names : List Str) :
    ∀ l : List Str, l.Nodup → ∀ x ∈ names,
      x ∉ names.foldl (fun acc n => acc.erase n) l := by
  induction names with
  | nil => intro l _ x hx; simp at hx
  | cons n rest ih =>
    intro l hl x hx
    rcases List.mem_cons.mp hx with rfl | hxr
    · intro hmem
      have hsub := (foldl_erase_sublist rest (l.erase x)).subset hmem
      exact ((List.Nodup.mem_erase_iff hl).mp hsub).1 rfl
    · exact ih (l.erase n) (hl.erase n) x hxr

theorem customerCol_isSome {t : TableInfo} {col : Str} (hcol : col ∈ t.columns)
    (hlc : lowerS col = "customer_id".toList) : (customerCol t).isSome := by
  rcases hfind : customerCol t with _ | c
  · exfalso
    have hnone := List.find?_eq_none.mp hfind col hcol
    simp [hlc] at hnone
  · simp

/-- C2: a table with a customer_id column, compared case-insensitively, is
classified into the direct-tenant category and never appears in the
user_id, indirect, or reference category, whatever its other columns and
foreign keys. -/
theorem c2_customer_id_direct_tenant (tables : List TableInfo) (allFks : FKMap)
    (hnd : (tables.map TableInfo.name).Nodup)
    (t : TableInfo) (ht : t ∈ tables)
    (col : Str) (hcol : col ∈ t.columns)
    (hlc : lowerS col = "customer_id".toList) :
    (∃ c, (t.name, c) ∈ (classifyTables tables allFks).withCustomer) ∧
    (∀ p ∈ (classifyTables tables allFks).withUser, p.1 ≠ t.name) ∧
    (∀ p ∈ (classifyTables tables allFks).indirect, p.1 ≠ t.name) ∧
    t.name ∉ (classifyTables tables allFks).reference := by
  obtain ⟨c, hc⟩ := Option.isSome_iff_exists.mp (customerCol_isSome hcol hlc)
  have hmemC : (t.name, c) ∈ (categorize_tables_by_customer_id tables).1 :=
    List.mem_filterMap.mpr ⟨t, ht, by simp [hc]⟩
  have hnameC : t.name ∈ custNamesOf tables :=
    List.mem_map.mpr ⟨(t.name, c), hmemC, rfl⟩
  have hnotwc : t.name ∉ (categorize_tables_by_customer_id tables).2 := by
    intro hmem
    obtain ⟨t2, ht2mem, hname⟩ := List.mem_map.mp hmem
    have ht2f := List.mem_filter.mp ht2mem
    have heq : t2 = t := List.inj_on_of_nodup_map hnd ht2f.1 ht hname
    rw [heq, hc] at ht2f
    simp at ht2f
  have hnotwc2 : t.name ∉ withoutCust2Of tables := fun hmem =>
    hnotwc ((foldl_erase_sublist (userNamesOf tables)
      (categorize_tables_by_customer_id tables).2).subset hmem)
  refine ⟨⟨c, hmemC⟩, ?_, ?_, ?_⟩
  · intro p hp hpeq
    obtain ⟨t2, ht2, hft⟩ := List.mem_filterMap.mp hp
    by_cases hin : t2.name ∈ custNamesOf tables
    · rw [if_pos hin] at hft
      simp at hft
    · rw [if_neg hin] at hft
      rcases hu : find_user_id_column t2.columns with _ | ucol
      · rw [hu] at hft
        simp at hft
      · rw [hu] at hft
        have hpv : p = (t2.name, ucol) := by simpa using hft.symm
        rw [hpv] at hpeq
        have h2n : t2.name = t.name := by simpa using hpeq
        exact hin (by rw [h2n]; exact hnameC)
  · intro p hp hpeq
    obtain ⟨tn, htn, hmap⟩ := List.mem_filterMap.mp hp
    rcases hb : build_relationship_chain tn allFks (custNamesOf tables)
        (userNamesOf tables) with _ | r
    · rw [hb] at hmap
      simp at hmap
    · rw [hb] at hmap
      have hpv : p = (tn, r) := by simpa using hmap.symm
      rw [hpv] at hpeq
      have h2n : tn = t.name := by simpa using hpeq
      exact hnotwc2 (h2n ▸ htn)
  · intro hmem
    exact hnotwc2 (List.mem_filter.mp hmem).1

/-- Witness for c2_customer_id_direct_tenant on a concrete two-table
database with an empty FK map. -/
theorem c2_customer_id_direct_tenant_witness :
    (∃ c, (tblRole.name, c) ∈
      (classifyTables [tblRole, tblMisc] []).withCustomer) ∧
    (∀ p ∈ (classifyTables [tblRole, tblMisc] []).withUser, p.1 ≠ tblRole.name) ∧
    (∀ p ∈ (classifyTables [tblRole, tblMisc] []).indirect, p.1 ≠ tblRole.name) ∧
    tblRole.name ∉ (classifyTables [tblRole, tblMisc] []).reference :=
  c2_customer_id_direct_tenant [tblRole, tblMisc] [] (by decide) tblRole
    (by decide) "Customer_ID".toList (by decide) (by decide)

/-- C3 counterexample: a run invoked with --force over the database list
(A, A) first marks table T completed and then, when the second pass over
the same database raises, overwrites the very same (database, table) state
entry with failed -- a completed table regresses to failed within one run.
-/
theorem c3_counterexample :
    (run_migration cfgC3 [(dbA, envOkC3), (dbA, envExcC3)] []).2 =
      [(("A".toList, "T".toList), TStatus.completed 5),
       (("A".toList, "T".toList), TStatus.failed excReason)] := by
  decide

theorem runPhase_writes (cfg : RunCfg) (db : Str) (envOf : Str → TableEnv)
    (proc : RunCfg → MState → Str → Str → TableEnv → Option TStatus)
    (names : List Str) :
    ∀ acc : MState × List WriteEv, ∃ nw : List WriteEv,
      (runPhase cfg db envOf proc names acc).2 = acc.2 ++ nw ∧
      List.Sublist (nw.map fun w => w.1.2) names ∧
      ∀ w ∈ nw, w.1.1 = db := by
  induction names with
  | nil =>
    intro acc
    exact ⟨[], by simp [runPhase], List.nil_sublist _, by simp⟩
  | cons n rest ih =>
    intro acc
    rcases hp : proc cfg acc.1 db n (envOf n) with _ | st
    · have hstep : runPhase cfg db envOf proc (n :: rest) acc =
          runPhase cfg db envOf proc rest acc := by
        simp [runPhase, List.foldl_cons, hp]
      obtain ⟨nw, h1, h2, h3⟩ := ih acc
      exact ⟨nw, by rw [hstep, h1], h2.cons n, h3⟩
    · have hstep : runPhase cfg db envOf proc (n :: rest) acc =
          runPhase cfg db envOf proc rest
            (set_table_state acc.1 db n st, acc.2 ++ [((db, n), st)]) := by
        simp [runPhase, List.foldl_cons, hp]
      obtain ⟨nw, h1, h2, h3⟩ :=
        ih (set_table_state acc.1 db n st, acc.2 ++ [((db, n), st)])
      refine ⟨((db, n), st) :: nw, ?_, ?_, ?_⟩
      · rw [hstep, h1]
        simp
      · simpa using h2.cons₂ n
      · intro w hw
        rcases List.mem_cons.mp hw with rfl | hw2
        · rfl
        · exact h3 w hw2

theorem custNamesOf_eq (tables : List TableInfo) :
    custNamesOf tables =
      tables.filterMap fun t => (customerCol t).map fun _ => t.name := by
  simp only [custNamesOf, categorize_tables_by_customer_id, List.map_filterMap]
  apply List.filterMap_congr
  intro t _
  cases customerCol t <;> simp

theorem userNamesOf_eq (tables : List TableInfo) :
    userNamesOf tables =
      tables.filterMap fun t =>
        (if t.name ∈ custNamesOf tables then none
         else find_user_id_column t.columns).map fun _ => t.name := by
  simp only [userNamesOf, withUserOf, List.map_filterMap]
  apply List.filterMap_congr
  intro t _
  by_cases hin : t.name ∈ custNamesOf tables
  · simp [hin]
  · cases find_user_id_column t.columns <;> simp [hin]

theorem indirectNames_eq (tables : List TableInfo) (allFks : FKMap) :
    (classifyTables tables allFks).indirect.map Prod.fst =
      (withoutCust2Of tables).filterMap fun tn =>
        ((build_relationship_chain tn allFks (custNamesOf tables)
          (userNamesOf tables)).map fun r => (tn, r)).map Prod.fst := by
  simp [classifyTables, List.map_filterMap]

theorem phaseNames_nodup (tables : List TableInfo) (allFks : FKMap)
    (hnd : (tables.map TableInfo.name).Nodup) :
    (phaseNames tables allFks).Nodup := by
  have hwc_sub : List.Sublist ((categorize_tables_by_customer_id tables).2)
      (tables.map TableInfo.name) := by
    show List.Sublist ((tables.filter fun t => (customerCol t).isNone).map
      TableInfo.name) (tables.map TableInfo.name)
    exact (List.filter_sublist tables).map TableInfo.name
  have hwc_nd : ((categorize_tables_by_customer_id tables).2).Nodup :=
    hwc_sub.nodup hnd
  have hwc2_sub : List.Sublist (withoutCust2Of tables)
      ((categorize_tables_by_customer_id tables).2) :=
    foldl_erase_sublist (userNamesOf tables) _
  have hwc2_nd : (withoutCust2Of tables).Nodup := hwc2_sub.nodup hwc_nd
  have hcust_sub : List.Sublist (custNamesOf tables) (tables.map TableInfo.name) := by
    rw [custNamesOf_eq]
    exact filterMap_name_sublist tables customerCol TableInfo.name
  have hcust_nd : (custNamesOf tables).Nodup := hcust_sub.nodup hnd
  have huser_sub : List.Sublist (userNamesOf tables) (tables.map TableInfo.name) := by
    rw [userNamesOf_eq]
    exact filterMap_name_sublist tables _ TableInfo.name
  have huser_nd : (userNamesOf tables).Nodup := huser_sub.nodup hnd
  have hind_sub : List.Sublist
      ((classifyTables tables allFks).indirect.map Prod.fst)
      (withoutCust2Of tables) := by
    rw [indirectNames_eq]
    have heq : ((withoutCust2Of tables).filterMap fun tn =>
        ((build_relationship_chain tn allFks (custNamesOf tables)
          (userNamesOf tables)).map fun r => (tn, r)).map Prod.fst) =
        (withoutCust2Of tables).filterMap fun tn =>
          (build_relationship_chain tn allFks (custNamesOf tables)
            (userNamesOf tables)).map fun _ => tn := by
      apply List.filterMap_congr
      intro tn _
      cases build_relationship_chain tn allFks (custNamesOf tables)
        (userNamesOf tables) <;> simp
    rw [heq]
    have h := filterMap_name_sublist (withoutCust2Of tables)
      (fun tn => build_relationship_chain tn allFks (custNamesOf tables)
        (userNamesOf tables)) (fun x => x)
    simpa using h
  have hind_nd : ((classifyTables tables allFks).indirect.map Prod.fst).Nodup :=
    (hind_sub.trans hwc2_sub).nodup hwc_nd
  have href_sub : List.Sublist ((classifyTables tables allFks).reference)
      (withoutCust2Of tables) := by
    show List.Sublist ((withoutCust2Of tables).filter _) _
    exact List.filter_sublist _
  have href_nd : ((classifyTables tables allFks).reference).Nodup :=
    (href_sub.trans hwc2_sub).nodup hwc_nd
  -- membership characterizations
  have hmem_cust : ∀ n ∈ custNamesOf tables,
      ∃ t ∈ tables, t.name = n ∧ (customerCol t).isSome := by
    intro n hn
    rw [custNamesOf_eq] at hn
    obtain ⟨t, ht, hmap⟩ := List.mem_filterMap.mp hn
    rcases hcc : customerCol t with _ | c
    · rw [hcc] at hmap
      simp at hmap
    · rw [hcc] at hmap
      exact ⟨t, ht, by simpa using hmap, by simp [hcc]⟩
  have hmem_user_notcust : ∀ n ∈ userNamesOf tables, n ∉ custNamesOf tables := by
    intro n hn
    rw [userNamesOf_eq] at hn
    obtain ⟨t, ht, hmap⟩ := List.mem_filterMap.mp hn
    by_cases hin : t.name ∈ custNamesOf tables
    · rw [if_pos hin] at hmap
      simp at hmap
    · rw [if_neg hin] at hmap
      rcases hu : find_user_id_column t.columns with _ | c
      · rw [hu] at hmap
        simp at hmap
      · rw [hu] at hmap
        have : t.name = n := by simpa using hmap
        rwa [this] at hin
  have hmem_wc : ∀ n ∈ (categorize_tables_by_customer_id tables).2,
      ∃ t ∈ tables, t.name = n ∧ (customerCol t).isNone := by
    intro n hn
    obtain ⟨t, ht, hname⟩ := List.mem_map.mp hn
    have htf := List.mem_filter.mp ht
    exact ⟨t, htf.1, hname, by simpa using htf.2⟩
  have hdisj_cust_wc : ∀ n ∈ custNamesOf tables,
      n ∉ (categorize_tables_by_customer_id tables).2 := by
    intro n hn hn2
    obtain ⟨t1, ht1, hn1, hs1⟩ := hmem_cust n hn
    obtain ⟨t2, ht2, hn2e, hs2⟩ := hmem_wc n hn2
    have : t1 = t2 :=
      List.inj_on_of_nodup_map hnd ht1 ht2 (by rw [hn1, hn2e])
    rw [this] at hs1
    rw [Option.isNone_iff_eq_none.mp hs2] at hs1
    simp at hs1
  have hdisj_user_wc2 : ∀ n ∈ userNamesOf tables,
      n ∉ withoutCust2Of tables :=
    fun n hn => foldl_erase_not_mem (userNamesOf tables) _ hwc_nd n hn
  -- assemble
  rw [phaseNames]
  rw [List.nodup_append]
  refine ⟨hcust_nd, ?_, ?_⟩
  · rw [List.nodup_append]
    refine ⟨huser_nd, ?_, ?_⟩
    · rw [List.nodup_append]
      refine ⟨hind_nd, href_nd, ?_⟩
      · -- indirect names disjoint from reference names
        intro n hni hnr
        obtain ⟨tn, htn, hmap⟩ := List.mem_filterMap.mp
          (by rw [indirectNames_eq] at hni; exact hni)
        have hnf := List.mem_filter.mp hnr
        rcases hb : build_relationship_chain tn allFks (custNamesOf tables)
            (userNamesOf tables) with _ | r
        · simp [hb] at hmap
        · simp [hb] at hmap
          subst hmap
          have h2 := hnf.2
          rw [hb] at h2
          simp at h2
    · -- user names disjoint from indirect ++ reference
      intro n hnu hnir
      rcases List.mem_append.mp hnir with hni | hnr
      · exact hdisj_user_wc2 n hnu (hind_sub.subset hni)
      · exact hdisj_user_wc2 n hnu (href_sub.subset hnr)
  · -- customer names disjoint from the rest
    intro n hnc hnrest
    rcases List.mem_append.mp hnrest with hnu | hnir
    · exact hmem_user_notcust n hnu hnc
    · have hnwc2 : n ∈ withoutCust2Of tables := by
        rcases List.mem_append.mp hnir with hni | hnr
        · exact hind_sub.subset hni
        · exact href_sub.subset hnr
      exact hdisj_cust_wc n hnc (hwc2_sub.subset hnwc2)

theorem migrate_db_writes (cfg : RunCfg) (db : DbInfo) (envOf : Str → TableEnv)
    (st : MState) (hnd : (db.tables.map TableInfo.name).Nodup) :
    ((migrate_database_data_writes cfg db envOf st).2.map fun w => w.1.2).Nodup ∧
    ∀ w ∈ (migrate_database_data_writes cfg db envOf st).2, w.1.1 = db.name := by
  obtain ⟨n1, e1, sb1, d1⟩ := runPhase_writes cfg db.name envOf
    processFilteredTable
    ((classifyTables db.tables (buildAllFks db.explicitFks db.tables)).withCustomer.map Prod.fst)
    (st, [])
  obtain ⟨n2, e2, sb2, d2⟩ := runPhase_writes cfg db.name envOf
    processFilteredTable
    ((classifyTables db.tables (buildAllFks db.explicitFks db.tables)).withUser.map Prod.fst)
    (runPhase cfg db.name envOf processFilteredTable
      ((classifyTables db.tables (buildAllFks db.explicitFks db.tables)).withCustomer.map Prod.fst)
      (st, []))
  obtain ⟨n3, e3, sb3, d3⟩ := runPhase_writes cfg db.name envOf
    processFilteredTable
    ((classifyTables db.tables (buildAllFks db.explicitFks db.tables)).indirect.map Prod.fst)
    (runPhase cfg db.name envOf processFilteredTable
      ((classifyTables db.tables (buildAllFks db.explicitFks db.tables)).withUser.map Prod.fst)
      (runPhase cfg db.name envOf processFilteredTable
        ((classifyTables db.tables (buildAllFks db.explicitFks db.tables)).withCustomer.map Prod.fst)
        (st, [])))
  obtain ⟨n4, e4, sb4, d4⟩ := runPhase_writes cfg db.name envOf
    processReferenceTable
    ((classifyTables db.tables (buildAllFks db.explicitFks db.tables)).reference)
    (runPhase cfg db.name envOf processFilteredTable
      ((classifyTables db.tables (buildAllFks db.explicitFks db.tables)).indirect.map Prod.fst)
      (runPhase cfg db.name envOf processFilteredTable
        ((classifyTables db.tables (buildAllFks db.explicitFks db.tables)).withUser.map Prod.fst)
        (runPhase cfg db.name envOf processFilteredTable
          ((classifyTables db.tables (buildAllFks db.explicitFks db.tables)).withCustomer.map Prod.fst)
          (st, []))))
  have hfin : (migrate_database_data_writes cfg db envOf st).2 =
      n1 ++ (n2 ++ (n3 ++ n4)) := by
    show (runPhase cfg db.name envOf processReferenceTable
      ((classifyTables db.tables (buildAllFks db.explicitFks db.tables)).reference)
      (runPhase cfg db.name envOf processFilteredTable
        ((classifyTables db.tables (buildAllFks db.explicitFks db.tables)).indirect.map Prod.fst)
        (runPhase cfg db.name envOf processFilteredTable
          ((classifyTables db.tables (buildAllFks db.explicitFks db.tables)).withUser.map Prod.fst)
          (runPhase cfg db.name envOf processFilteredTable
            ((classifyTables db.tables (buildAllFks db.explicitFks db.tables)).withCustomer.map Prod.fst)
            (st, []))))).2 = n1 ++ (n2 ++ (n3 ++ n4))
    rw [e4, e3, e2, e1]
    simp [List.append_assoc]
  constructor
  · rw [hfin]
    have hsub : List.Sublist
        ((n1 ++ (n2 ++ (n3 ++ n4))).map fun w => w.1.2)
        (phaseNames db.tables (buildAllFks db.explicitFks db.tables)) := by
      rw [phaseNames]
      simp only [List.map_append]
      exact sb1.append (sb2.append (sb3.append sb4))
    exact hsub.nodup (phaseNames_nodup db.tables (buildAllFks db.explicitFks db.tables) hnd)
  · rw [hfin]
    intro w hw
    rcases List.mem_append.mp hw with h | h
    · exact d1 w h
    · rcases List.mem_append.mp h with h | h
      · exact d2 w h
      · rcases List.mem_append.mp h with h | h
        · exact d3 w h
        · exact d4 w h

theorem run_migration_writes_prefix (cfg : RunCfg) :
    ∀ (dbs : List (DbInfo × (Str → TableEnv))) (st : MState) (ws : List WriteEv),
      (dbs.foldl (fun acc d =>
        ((migrate_database_data_writes cfg d.1 d.2 acc.1).1,
         acc.2 ++ (migrate_database_data_writes cfg d.1 d.2 acc.1).2)) (st, ws)).2 =
      ws ++ (dbs.foldl (fun acc d =>
        ((migrate_database_data_writes cfg d.1 d.2 acc.1).1,
         acc.2 ++ (migrate_database_data_writes cfg d.1 d.2 acc.1).2)) (st, [])).2 := by
  intro dbs
  induction dbs with
  | nil => intro st ws; simp
  | cons d rest ih =>
    intro st ws
    rw [List.foldl_cons, List.foldl_cons]
    rw [ih ((migrate_database_data_writes cfg d.1 d.2 st).1)
        (ws ++ (migrate_database_data_writes cfg d.1 d.2 st).2),
      ih ((migrate_database_data_writes cfg d.1 d.2 st).1)
        ([] ++ (migrate_database_data_writes cfg d.1 d.2 st).2)]
    simp [List.append_assoc]

theorem run_migration_keys_nodup (cfg : RunCfg) :
    ∀ (dbs : List (DbInfo × (Str → TableEnv))) (st : MState),
      (dbs.map fun d => d.1.name).Nodup →
      (∀ d ∈ dbs, (d.1.tables.map TableInfo.name).Nodup) →
      ((run_migration cfg dbs st).2.map Prod.fst).Nodup ∧
      ∀ w ∈ (run_migration cfg dbs st).2,
        w.1.1 ∈ dbs.map fun d => d.1.name := by
  intro dbs
  induction dbs with
  | nil =>
    intro st _ _
    exact ⟨by simp [run_migration], by simp [run_migration]⟩
  | cons d rest ih =>
    intro st hnd htab
    have hstep : (run_migration cfg (d :: rest) st).2 =
        (migrate_database_data_writes cfg d.1 d.2 st).2 ++
        (run_migration cfg rest
          (migrate_database_data_writes cfg d.1 d.2 st).1).2 := by
      have h1 : run_migration cfg (d :: rest) st =
          List.foldl (fun acc x =>
            ((migrate_database_data_writes cfg x.1 x.2 acc.1).1,
             acc.2 ++ (migrate_database_data_writes cfg x.1 x.2 acc.1).2))
            ((migrate_database_data_writes cfg d.1 d.2 st).1,
             [] ++ (migrate_database_data_writes cfg d.1 d.2 st).2) rest := rfl
      rw [h1, run_migration_writes_prefix]
      simp [run_migration]
    rw [List.map_cons, List.nodup_cons] at hnd
    obtain ⟨hdnd, hdall⟩ := migrate_db_writes cfg d.1 d.2 st
      (htab d (List.mem_cons_self d rest))
    obtain ⟨ihnd, ihall⟩ := ih ((migrate_database_data_writes cfg d.1 d.2 st).1)
      hnd.2 (fun x hx => htab x (List.mem_cons_of_mem d hx))
    constructor
    · rw [hstep, List.map_append, List.nodup_append]
      refine ⟨?_, ihnd, ?_⟩
      · -- keys of this database are nodup
        apply List.Nodup.of_map Prod.snd
        have : ((migrate_database_data_writes cfg d.1 d.2 st).2.map
            Prod.fst).map Prod.snd =
            (migrate_database_data_writes cfg d.1 d.2 st).2.map fun w => w.1.2 := by
          rw [List.map_map]
          rfl
        rw [this]
        exact hdnd
      · -- disjoint across databases
        intro k hk1 hk2
        obtain ⟨w1, hw1, hk1e⟩ := List.mem_map.mp hk1
        obtain ⟨w2, hw2, hk2e⟩ := List.mem_map.mp hk2
        have h1 : k.1 = d.1.name := by rw [← hk1e]; exact hdall w1 hw1
        have h2 : k.1 ∈ rest.map fun x => x.1.name := by
          rw [← hk2e]
          exact ihall w2 hw2
        rw [h1] at h2
        exact hnd.1 h2
    · rw [hstep]
      intro w hw
      rcases List.mem_append.mp hw with h | h
      · rw [List.map_cons]
        exact List.mem_cons.mpr (Or.inl (hdall w h))
      · rw [List.map_cons]
        exact List.mem_cons.mpr (Or.inr (ihall w h))

/-- C3 amended: in a run whose processed database list has no duplicate
database names (each database having a duplicate-free table list), every
(database, table) state entry is written at most once, so a table whose
state was set to completed is never subsequently set to failed or any
other status within that run; with a repeated database name and force the
write log can regress, as the counterexample shows. -/
theorem c3_state_monotone_amended (cfg : RunCfg)
    (dbs : List (DbInfo × (Str → TableEnv))) (st : MState)
    (hnd : (dbs.map fun d => d.1.name).Nodup)
    (htab : ∀ d ∈ dbs, (d.1.tables.map TableInfo.name).Nodup) :
    ((run_migration cfg dbs st).2.map Prod.fst).Nodup ∧
    ∀ (pre mid post : List WriteEv) (key : Str × Str) (r : Nat) (s2 : TStatus),
      (run_migration cfg dbs st).2 =
        pre ++ ((key, TStatus.completed r) :: (mid ++ (key, s2) :: post)) →
      False := by
  refine ⟨(run_migration_keys_nodup cfg dbs st hnd htab).1, ?_⟩
  intro pre mid post key r s2 hsplit
  have hkeys := (run_migration_keys_nodup cfg dbs st hnd htab).1
  rw [hsplit] at hkeys
  simp only [List.map_append, List.map_cons] at hkeys
  have h1 := (List.nodup_append.mp hkeys).2.1
  have h2 := (List.nodup_cons.mp h1).1
  exact h2 (List.mem_append_right _ (List.mem_cons_self _ _))

/-- Witness for c3_state_monotone_amended on a concrete one-database run.
-/
theorem c3_state_monotone_amended_witness :
    ((run_migration cfgC3 [(dbA, envOkC3)] []).2.map Prod.fst).Nodup :=
  (c3_state_monotone_amended cfgC3 [(dbA, envOkC3)] [] (by decide)
    (by
      intro d hd
      rcases List.mem_cons.mp hd with rfl | h
      · decide
      · simp at h)).1

/-- C1: every terminating execution of the per-database migration and of
the destructive row delete leaves FOREIGN_KEY_CHECKS = 1 on the
destination connection -- on normal completion, on early returns, and
when an exception escapes the phases alike. -/
theorem c1_fk_checks_restored (dbMissing noTables : Bool)
    (phaseErr : Option Str) (c : DestConn)
    (errOracle : Str → Str → Option Str) (target : List TargetDb)
    (analysis : List (Str × List TableScope)) (c2 : DestConn) :
    (migrate_database_data_fk dbMissing noTables phaseErr c).2.fkChecks = true ∧
    (execute_deletion errOracle target analysis c2).2.2.2.2.fkChecks = true :=
  ⟨rfl, rfl⟩

/-- C9 counterexample: the final confirmation input with surrounding
spaces is not exactly the literal DELETE DATA, yet because the code strips
it before comparing, the deletion executes: the log file is written and
table X is emptied. -/
theorem c9_counterexample :
    " DELETE DATA ".toList ≠ "DELETE DATA".toList ∧
    (delete_main false false false "yes".toList "yes".toList
        " DELETE DATA ".toList (fun _ _ => none) [(tdbD, ["X".toList])]
        none none ⟨true⟩).logWritten = true ∧
    (delete_main false false false "yes".toList "yes".toList
        " DELETE DATA ".toList (fun _ _ => none) [(tdbD, ["X".toList])]
        none none ⟨true⟩).target =
      [⟨"D".toList, [⟨"X".toList, false, []⟩]⟩] := by
  decide

/-- C9 amended: when the final confirmation input, after whitespace
stripping, differs from the literal DELETE DATA (and --no-confirmation is
not set), the destructive operation returns without executing any DELETE,
creating any backup, or writing a deletion log: every observable effect is
unchanged. -/
theorem c9_confirmation_amended (dryRun backup : Bool)
    (step1 step3 finalResp : Str) (errOracle : Str → Str → Option Str)
    (dbs : List (TargetDb × List Str)) (customer_ids : Option (List Nat))
    (specific : Option (List Str)) (c : DestConn)
    (hfinal : trimS finalResp ≠ "DELETE DATA".toList) :
    delete_main dryRun backup false step1 step3 finalResp errOracle dbs
      customer_ids specific c =
      ⟨dbs.map Prod.fst, false, false, [], [], c⟩ := by
  have hconf : get_deletion_confirmation step1 step3 finalResp = false := by
    unfold get_deletion_confirmation
    have hd : decide (trimS finalResp = "DELETE DATA".toList) = false := by
      simpa using hfinal
    rw [hd, Bool.and_false, Bool.and_false]
  unfold delete_main
  split
  · rfl
  · split
    · rfl
    · rw [if_pos ⟨by simp, by simp [hconf]⟩]

/-- Witness for c9_confirmation_amended: a lowercase final response is
rejected and nothing happens. -/
theorem c9_confirmation_amended_witness :
    delete_main false true false "yes".toList "yes".toList
        "delete data".toList (fun _ _ => none) [(tdbD, ["X".toList])]
        none none ⟨true⟩ =
      ⟨[tdbD], false, false, [], [], ⟨true⟩⟩ :=
  c9_confirmation_amended false true "yes".toList "yes".toList
    "delete data".toList (fun _ _ => none) [(tdbD, ["X".toList])]
    none none ⟨true⟩ (by decide)

theorem execTableDeletion_stmt_indep (errOracle : Str → Str → Option Str)
    (dbName : Str) (tt : Option TargetTable) (ts : TableScope) :
    (execTableDeletion errOracle dbName tt ts).2.1 =
      stmtChoice errOracle dbName ts := by
  unfold stmtChoice execTableDeletion
  cases errOracle dbName ts.name with
  | some e => rfl
  | none =>
    by_cases hb : (ts.has_customer_id &&
        containsSub "customer_id IN".toList ts.filter_used) = true
    · rw [if_pos hb, if_pos hb]
      cases extractIdsFrom ts.filter_used <;> rfl
    · rw [if_neg hb, if_neg hb]

theorem updateTable_name (tdb : TargetDb) (n : Str) (tt : Option TargetTable) :
    (updateTable tdb n tt).name = tdb.name := by
  cases tt <;> rfl

theorem execDbDeletion_stmts_general (errOracle : Str → Str → Option Str)
    (scope : List TableScope) :
    ∀ (tdb : TargetDb) (acc2 : List DelStmt) (acc3 : List DelLogEntry),
      (scope.foldl
        (fun acc ts =>
          (updateTable acc.1 ts.name
            (execTableDeletion errOracle acc.1.name (lookupTable acc.1 ts.name) ts).1,
           acc.2.1 ++ (match (execTableDeletion errOracle acc.1.name
              (lookupTable acc.1 ts.name) ts).2.1 with
              | some st => [st] | none => []),
           acc.2.2 ++ [(execTableDeletion errOracle acc.1.name
              (lookupTable acc.1 ts.name) ts).2.2]))
        (tdb, acc2, acc3)).2.1 =
      acc2 ++ scope.filterMap fun ts => stmtChoice errOracle tdb.name ts := by
  induction scope with
  | nil => intro tdb acc2 acc3; simp
  | cons ts rest ih =>
    intro tdb acc2 acc3
    rw [List.foldl_cons]
    rw [ih]
    rw [updateTable_name]
    rw [execTableDeletion_stmt_indep]
    rw [List.filterMap_cons]
    cases stmtChoice errOracle tdb.name ts with
    | none => simp
    | some st => simp

/-- C10: a table of the deletion scope that lacks a customer_id column in
the target is analyzed with the all-rows filter even when customer ids
are supplied; its executed statement is an unfiltered DELETE FROM that
removes every row; a filtered DELETE is only ever chosen for a table the
analysis recorded as having the column; and the statements of one
database's deletion are exactly the per-entry choices, in scope order. -/
theorem c10_unfiltered_delete (tdb : TargetDb) (src : List Str)
    (ids : List Nat) (errOracle : Str → Str → Option Str) :
    (∀ tt : TargetTable, lookupTable tdb tt.name = some tt →
      tt.hasCustomerId = false → tt.rows ≠ [] → tt.name ∈ src →
      (⟨tt.name, tt.rows.length, false, allRowsStr⟩ : TableScope) ∈
        analyze_deletion_scope src tdb (some ids) none) ∧
    (∀ (ts : TableScope) (dbName : Str) (t0 : TargetTable),
      ts.has_customer_id = false → errOracle dbName ts.name = none →
      execTableDeletion errOracle dbName (some t0) ts =
        (some { t0 with rows := [] },
         some (DelStmt.unfiltered dbName ts.name),
         DelLogEntry.ok dbName ts.name (Int.ofNat t0.rows.length)
           ts.filter_used)) ∧
    (∀ (ts : TableScope) (dbName : Str),
      (∃ a b i2, stmtChoice errOracle dbName ts =
        some (DelStmt.filtered a b i2)) →
      ts.has_customer_id = true) ∧
    (∀ scope : List TableScope,
      (execDbDeletion errOracle tdb scope).2.1 =
        scope.filterMap fun ts => stmtChoice errOracle tdb.name ts) := by
  refine ⟨?_, ?_, ?_, ?_⟩
  · intro tt hlook hnc hrows hsrc
    show _ ∈ src.filterMap (analyzeTable tdb (some ids))
    apply List.mem_filterMap.mpr
    refine ⟨tt.name, hsrc, ?_⟩
    unfold analyzeTable
    rw [hlook]
    simp only [hnc, Bool.false_and, if_neg (by simp : ¬ (false = true))]
    rw [if_pos (by simpa [List.length_pos] using hrows)]
  · intro ts dbName t0 hnc herr
    unfold execTableDeletion
    rw [herr]
    simp [hnc]
  · intro ts dbName ⟨a, b, i2, hst⟩
    by_cases hc : ts.has_customer_id = true
    · exact hc
    · exfalso
      have hcf : ts.has_customer_id = false := by
        cases hh : ts.has_customer_id
        · rfl
        · exact absurd hh hc
      unfold stmtChoice execTableDeletion at hst
      rw [hcf] at hst
      cases ho : errOracle dbName ts.name with
      | some e => rw [ho] at hst; simp at hst
      | none =>
        rw [ho] at hst
        simp at hst
  · intro scope
    exact execDbDeletion_stmts_general errOracle scope tdb [] []

/-- Witness for c10_unfiltered_delete on the concrete database D with the
no-column table X holding one row, and supplied customer ids. -/
theorem c10_unfiltered_delete_witness :
    ((⟨"X".toList, 1, false, allRowsStr⟩ : TableScope) ∈
      analyze_deletion_scope ["X".toList] tdbD (some [1, 2]) none) ∧
    execTableDeletion (fun _ _ => none) "D".toList
        (some ⟨"X".toList, false, [none]⟩)
        ⟨"X".toList, 1, false, allRowsStr⟩ =
      (some ⟨"X".toList, false, []⟩,
       some (DelStmt.unfiltered "D".toList "X".toList),
       DelLogEntry.ok "D".toList "X".toList (Int.ofNat 1) allRowsStr) :=
  ⟨(c10_unfiltered_delete tdbD ["X".toList] [1, 2] (fun _ _ => none)).1
      ⟨"X".toList, false, [none]⟩ (by decide) (by decide) (by decide) (by decide),
   (c10_unfiltered_delete tdbD ["X".toList] [1, 2] (fun _ _ => none)).2.1
      ⟨"X".toList, 1, false, allRowsStr⟩ "D".toList
      ⟨"X".toList, false, [none]⟩ (by decide) (by decide)⟩

theorem insert_data_batch_general {Row : Type} (ok : Row → Bool) :
    ∀ (batch : List Row) (i f : Nat),
      (batch.foldl (fun acc r =>
        if ok r then (acc.1 + 1, acc.2) else (acc.1, acc.2 + 1)) (i, f)).1 +
      (batch.foldl (fun acc r =>
        if ok r then (acc.1 + 1, acc.2) else (acc.1, acc.2 + 1)) (i, f)).2 =
      i + f + batch.length := by
  intro batch
  induction batch with
  | nil => intro i f; simp
  | cons r rest ih =>
    intro i f
    rw [List.foldl_cons]
    by_cases hr : ok r
    · rw [if_pos hr]
      have hpair : ((i, f).1 + 1, (i, f).2) = (i + 1, f) := rfl
      rw [hpair]
      have := ih (i + 1) f
      simp only [List.length_cons]
      omega
    · rw [if_neg hr]
      have hpair : ((i, f).1, (i, f).2 + 1) = (i, f + 1) := rfl
      rw [hpair]
      have := ih i (f + 1)
      simp only [List.length_cons]
      omega

theorem migrateLoop_sum {Row : Type} (ok : Row → Bool) (rows : List Row)
    (batchSize : Nat) (hbs : 0 < batchSize) :
    ∀ (fuel offset ins fail : Nat), rows.length - offset < fuel →
      (migrateLoop ok rows batchSize fuel offset ins fail).inserted +
      (migrateLoop ok rows batchSize fuel offset ins fail).failed =
      ins + fail + (rows.length - offset) := by
  intro fuel
  induction fuel with
  | zero => intro offset ins fail hf; omega
  | succ fuel ih =>
    intro offset ins fail hf
    by_cases ho : offset < rows.length
    · have hlen : ((rows.drop offset).take batchSize).length =
          min batchSize (rows.length - offset) := by
        simp [List.length_take, List.length_drop]
      have hne : ¬ ((rows.drop offset).take batchSize).isEmpty = true := by
        rw [List.isEmpty_iff_length_eq_zero, hlen]
        omega
      show (migrateLoop ok rows batchSize (fuel + 1) offset ins fail).inserted +
        (migrateLoop ok rows batchSize (fuel + 1) offset ins fail).failed = _
      rw [migrateLoop, if_pos ho, if_neg hne]
      have hrec := ih (offset + batchSize)
        (ins + (insert_data_batch ok ((rows.drop offset).take batchSize)).1)
        (fail + (insert_data_batch ok ((rows.drop offset).take batchSize)).2)
        (by omega)
      rw [hrec]
      have hins := insert_data_batch_general ok ((rows.drop offset).take batchSize) 0 0
      have hins2 : (insert_data_batch ok ((rows.drop offset).take batchSize)).1 +
          (insert_data_batch ok ((rows.drop offset).take batchSize)).2 =
          ((rows.drop offset).take batchSize).length := by
        simpa [insert_data_batch] using hins
      rw [hlen] at hins2
      omega
    · rw [migrateLoop, if_neg ho]
      show ins + fail = ins + fail + (rows.length - offset)
      omega

/-- C8: for a reference table whose counted row total is N, a full pass of
the batch loop without an exception ends with inserted plus failed equal
to N, and every batch insert returns a pair of successful and failed
counts summing to the number of rows in the batch. -/
theorem c8_reference_accounting {Row : Type} (ok : Row → Bool)
    (rows : List Row) (batchSize : Nat) (hbs : 0 < batchSize) :
    ((migrate_table_data ok rows batchSize).inserted +
      (migrate_table_data ok rows batchSize).failed = rows.length ∧
     (migrate_table_data ok rows batchSize).total_rows = rows.length) ∧
    ∀ batch : List Row,
      (insert_data_batch ok batch).1 + (insert_data_batch ok batch).2 =
        batch.length := by
  constructor
  · unfold migrate_table_data
    by_cases h0 : rows.length = 0
    · rw [if_pos h0]
      exact ⟨by simpa using h0.symm, by simpa using h0.symm⟩
    · rw [if_neg h0]
      constructor
      · have := migrateLoop_sum ok rows batchSize hbs (rows.length + 1) 0 0 0
          (by omega)
        simpa using this
      · -- total_rows field of every loop exit is the counted length
        have : ∀ fuel offset ins fail,
            (migrateLoop ok rows batchSize fuel offset ins fail).total_rows =
            rows.length := by
          intro fuel
          induction fuel with
          | zero => intro offset ins fail; rfl
          | succ fuel ih =>
            intro offset ins fail
            rw [migrateLoop]
            by_cases ho : offset < rows.length
            · rw [if_pos ho]
              by_cases hb : ((rows.drop offset).take batchSize).isEmpty = true
              · rw [if_pos hb]
              · rw [if_neg hb]
                exact ih _ _ _
            · rw [if_neg ho]
        exact this _ _ _ _
  · intro batch
    simpa [insert_data_batch] using
      insert_data_batch_general ok batch 0 0

/-- Witness for c8_reference_accounting on a concrete five-row table with
two failing rows and batch size two. -/
theorem c8_reference_accounting_witness :
    0 < 2 ∧
    (((migrate_table_data (fun r : Nat => decide (r < 3)) [0, 1, 2, 3, 4] 2).inserted +
        (migrate_table_data (fun r : Nat => decide (r < 3)) [0, 1, 2, 3, 4] 2).failed =
        [0, 1, 2, 3, 4].length ∧
      (migrate_table_data (fun r : Nat => decide (r < 3)) [0, 1, 2, 3, 4] 2).total_rows =
        [0, 1, 2, 3, 4].length) ∧
     ∀ batch : List Nat,
      (insert_data_batch (fun r : Nat => decide (r < 3)) batch).1 +
        (insert_data_batch (fun r : Nat => decide (r < 3)) batch).2 = batch.length) :=
  ⟨by decide, c8_reference_accounting (fun r : Nat => decide (r < 3)) [0, 1, 2, 3, 4] 2
    (by decide)⟩

/-- C7 counterexample: one application of strip_foreign_keys removes the
single FK match of sSplice, but its output contains a new FK match, so
the second application returns a different statement and a nonempty FK
list -- the function is not idempotent. -/
theorem c7_counterexample :
    strip_foreign_keys (strip_foreign_keys sSplice).1 ≠
      ((strip_foreign_keys sSplice).1, []) ∧
    (strip_foreign_keys (strip_foreign_keys sSplice).1).1 = [] ∧
    (strip_foreign_keys (strip_foreign_keys sSplice).1).2.length = 1 := by
  decide

/-- C7 amended: one application removes exactly the left-to-right
non-overlapping matches of the FK pattern; reapplying it returns the
stripped statement unchanged with an empty FK list provided the stripped
statement contains no further FK-pattern match and is a fixed point of
the two comma-cleanup substitutions; without those provisos idempotence
can fail, because removal can splice surrounding text into a fresh match.
-/
theorem c7_strip_amended (s : Str)
    (hnm : findFkSpans (strip_foreign_keys s).1 = [])
    (hc1 : subPatAux matchCommaCommaAt [',']
      ((strip_foreign_keys s).1.length + 1) (strip_foreign_keys s).1 =
      (strip_foreign_keys s).1)
    (hc2 : subPatAux matchCommaParenAt [')']
      ((strip_foreign_keys s).1.length + 1) (strip_foreign_keys s).1 =
      (strip_foreign_keys s).1) :
    strip_foreign_keys (strip_foreign_keys s).1 =
      ((strip_foreign_keys s).1, []) := by
  show (let spans := findFkSpans (strip_foreign_keys s).1
    let fks := spans.map fun sp =>
      cleanFkDef (((strip_foreign_keys s).1.drop sp.1).take sp.2)
    let removed := removeSpansAux (strip_foreign_keys s).1 0 spans
    let c1 := subPatAux matchCommaCommaAt [','] (removed.length + 1) removed
    let c2 := subPatAux matchCommaParenAt [')'] (c1.length + 1) c1
    (c2, fks)) = ((strip_foreign_keys s).1, [])
  rw [hnm]
  show (subPatAux matchCommaParenAt [')']
      ((subPatAux matchCommaCommaAt [',']
        ((strip_foreign_keys s).1.length + 1) (strip_foreign_keys s).1).length + 1)
      (subPatAux matchCommaCommaAt [',']
        ((strip_foreign_keys s).1.length + 1) (strip_foreign_keys s).1),
    ([] : List Str)) = ((strip_foreign_keys s).1, [])
  rw [hc1, hc2]

set_option maxRecDepth 100000 in
/-- Witness for c7_strip_amended on a realistic CREATE TABLE statement:
its stripped form has no residual FK match and no cleanup work left, so
reapplying the strip is the identity. -/
theorem c7_strip_amended_witness :
    strip_foreign_keys (strip_foreign_keys sCreate).1 =
      ((strip_foreign_keys sCreate).1, []) :=
  c7_strip_amended sCreate (by decide) (by decide) (by decide)
